import Mathlib

/-!
# Verification of the FabChess search kernel (shallow embedding)

This file embeds, in Lean, the parts of the FabChess chess engine that the
specified properties talk about:

* the 16-bit move codec of the transposition cache
  (`src/search/cache.rs`, `CacheEntry::mv_to_u16` / `CacheEntry::u16_to_mv`),
* the lock-striped bucketed cache itself (`Cache`, `CacheBucket`, `CacheEntry`),
* the static null-move pruning step and the graded-move selection scan of the
  principal variation search (`src/search/alphabeta.rs`),
* the king-shield evaluation (`src/evaluation/king_evaluation.rs`).

Machine integers are embedded as `Nat`/`Int` with explicit `% 2^w` where the
source truncates (`as u16`, `as u32`, `as i8`).  Rust code that can panic is
embedded as `Option`-returning functions.  The `f64` bucket-replacement scores
`depth * (1.0 | 0.7)` are embedded at a fixed 10× integer scale
(`depth * (10 | 7)`); for the integer depths the program stores (|depth| ≤ 127)
every comparison appearing in the proved statements (sign tests and strict
comparisons between distinct scores, which differ by at least 0.1) has the
same truth value in `f64` and in the scaled-integer model.
-/

/-! ## Data model (`board_representation::game_state`)

The `game_state.rs` declaration file is not part of the provided sources; the
shapes below are modelled from the spec, §3 "Data model", and from how the
search/cache sources use them. -/

/-- Modelled from the spec: piece kinds `{Pawn, Knight, Bishop, Rook, Queen,
King}` (§3); the source indexes its bitboard array with the constants
`PAWN, KNIGHT, BISHOP, ROOK, QUEEN, KING` in this order. -/
inductive PieceType where
  | Pawn
  | Knight
  | Bishop
  | Rook
  | Queen
  | King
deriving DecidableEq, Repr

/-- Modelled from the spec: move types (§3).  `Capture` carries the captured
kind, `Promotion` the promoted kind and an optional captured kind. -/
inductive GameMoveType where
  | Quiet
  | Castle
  | EnPassant
  | Capture (captured : PieceType)
  | Promotion (promoted : PieceType) (captured : Option PieceType)
deriving DecidableEq, Repr

/-- Modelled from the spec: a move `(from: 0..63, to: 0..63, piece-kind,
move-type)` (§3).  `from`/`to` are `u8` in the source, embedded as `Nat`. -/
structure GameMove where
  «from» : Nat
  «to» : Nat
  piece_type : PieceType
  move_type : GameMoveType
deriving DecidableEq, Repr

/-- Modelled from the spec: the position fields the embedded code reads (§3):
12 piece bitboards indexed by kind and color (`u64`, embedded as `Nat`),
side-to-move (0 = White, 1 = Black), en-passant target board, halfmove clock,
full-move counter and the Zobrist hash. -/
structure GameState where
  pieces : PieceType → Nat → Nat
  color_to_move : Nat
  en_passant : Nat
  half_moves : Nat
  full_moves : Nat
  hash : Nat

/-- Modelled from the spec/usage: the parameter bundle handed to cache
`insert`/`lookup` (`CombinedSearchParameters` in `search/mod.rs`, a file not
in the provided sources); the cache reads `alpha`, `beta`, `depth_left` and
`game_state` from it. -/
structure CombinedSearchParameters where
  alpha : Int
  beta : Int
  depth_left : Int
  game_state : GameState

/-- Modelled from the spec/usage: the instruction a cache lookup returns. -/
inductive SearchInstruction where
  | ContinueSearching
  | StopSearching (score : Int)
deriving DecidableEq, Repr

/-! ## Bit-level helpers shared by the embedding and its proofs -/

/-- The value built by `CacheEntry::mv_to_u16`: `from` in bits 10–15, `to` in
bits 4–9, the type tag in bits 0–3, truncated to 16 bits by `as u16`. -/
def enc (f t g : Nat) : Nat := ((f <<< 10) ||| (t <<< 4) ||| g) % 65536

lemma testBit_enc (f t g i : Nat) :
    (enc f t g).testBit i =
      ((decide (i < 16)) && (((decide (10 ≤ i)) && f.testBit (i - 10)) ||
        ((decide (4 ≤ i)) && t.testBit (i - 4)) || g.testBit i)) := by
  have h65536 : (65536 : Nat) = 2 ^ 16 := by norm_num
  rw [enc, h65536, Nat.testBit_mod_two_pow]
  simp [Nat.testBit_or, Nat.testBit_shiftLeft]

lemma tb_small {g i : Nat} (k : Nat) (hg : g < 2 ^ k) (hi : k ≤ i) : g.testBit i = false :=
  Nat.testBit_lt_two_pow (lt_of_lt_of_le hg (Nat.pow_le_pow_right (by norm_num) hi))

lemma tb63 (j : Nat) : Nat.testBit 63 j = decide (j < 6) := by
  rw [show (63 : Nat) = 2 ^ 6 - 1 by norm_num, Nat.testBit_two_pow_sub_one]

/-- Bits 0–3 of an encoded move recover the type tag. -/
lemma enc_and_15 (f t g : Nat) (hg : g < 16) : enc f t g &&& 15 = g := by
  apply Nat.eq_of_testBit_eq
  intro i
  have h15 : (15 : Nat) = 2 ^ 4 - 1 := by norm_num
  rw [Nat.testBit_and, testBit_enc, h15, Nat.testBit_two_pow_sub_one]
  by_cases hi : i < 4
  · simp [show ¬ (10 ≤ i) by omega, show ¬ (4 ≤ i) by omega, show i < 16 by omega, hi]
  · have hgb : g.testBit i = false := tb_small 4 (by simpa using hg) (by omega)
    simp [hgb, hi]

/-- Bits 10–15 of an encoded move recover the from-square. -/
lemma enc_from (f t g : Nat) (hf : f < 64) (ht : t < 64) (hg : g < 16) :
    (enc f t g &&& 0xFC00) >>> 10 = f := by
  apply Nat.eq_of_testBit_eq
  intro i
  rw [Nat.testBit_shiftRight, Nat.testBit_and, testBit_enc]
  have hmask : (0xFC00 : Nat) = 63 <<< 10 := by norm_num [Nat.shiftLeft_eq]
  rw [hmask, Nat.testBit_shiftLeft]
  by_cases hi : i < 6
  · have htb : t.testBit (10 + i - 4) = false := tb_small 6 (by simpa using ht) (by omega)
    have hgb : g.testBit (10 + i) = false := tb_small 4 (by simpa using hg) (by omega)
    simp [htb, hgb, show 10 + i < 16 by omega, show 10 ≤ 10 + i by omega,
      show 10 + i - 10 = i by omega, tb63, hi]
  · have hfb : f.testBit i = false := tb_small 6 (by simpa using hf) (by omega)
    have h1 : 10 + i - 10 = i := by omega
    simp [hfb, tb63, h1, hi]

/-- Bits 4–9 of an encoded move recover the to-square. -/
lemma enc_to (f t g : Nat) (ht : t < 64) (hg : g < 16) :
    (enc f t g &&& 0x3F0) >>> 4 = t := by
  apply Nat.eq_of_testBit_eq
  intro i
  rw [Nat.testBit_shiftRight, Nat.testBit_and, testBit_enc]
  have hmask : (0x3F0 : Nat) = 63 <<< 4 := by norm_num [Nat.shiftLeft_eq]
  rw [hmask, Nat.testBit_shiftLeft]
  by_cases hi : i < 6
  · have hgb : g.testBit (4 + i) = false := tb_small 4 (by simpa using hg) (by omega)
    simp [show ¬ (10 ≤ 4 + i) by omega, hgb,
      show 4 + i < 16 by omega, show 4 ≤ 4 + i by omega,
      show 4 + i - 4 = i by omega, tb63, hi]
  · have htb : t.testBit i = false := tb_small 6 (by simpa using ht) (by omega)
    have h1 : 4 + i - 4 = i := by omega
    simp [htb, tb63, h1, hi]

/-! ## The 16-bit move codec (`search/cache.rs`, `CacheEntry`) -/

namespace CacheEntry

/-- The type-tag of `CacheEntry::mv_to_u16` for a promotion; the source
panics (`panic!("Invalid promotion!")`) on a promotion to pawn or king,
embedded as `none`. -/
def promotion_tag : PieceType → Option Nat
  | .Queen => some 3
  | .Rook => some 4
  | .Bishop => some 5
  | .Knight => some 6
  | _ => none

/-- The 4-bit type tag of `CacheEntry::mv_to_u16`. -/
def move_type_tag : GameMoveType → Option Nat
  | .Quiet => some 1
  | .Castle => some 2
  | .Promotion a _ => promotion_tag a
  | .Capture _ => some 7
  | .EnPassant => some 8

/-- `CacheEntry::mv_to_u16`: `res |= from << 10; res |= to << 4; res |= tag;
res as u16`.  `none` exactly when the source would panic on an invalid
promotion kind. -/
def mv_to_u16 (mv : GameMove) : Option Nat :=
  (move_type_tag mv.move_type).map fun tag =>
    ((mv.«from» <<< 10) ||| (mv.«to» <<< 4) ||| tag) % 65536

/-- The if-chain `u16_to_mv` uses (twice, verbatim) to re-derive a piece kind
from the given color's bitboards, falling back to `King`. -/
def derive_piece (gs : GameState) (color : Nat) (board : Nat) : PieceType :=
  if gs.pieces .Pawn color &&& board ≠ 0 then .Pawn
  else if gs.pieces .Knight color &&& board ≠ 0 then .Knight
  else if gs.pieces .Bishop color &&& board ≠ 0 then .Bishop
  else if gs.pieces .Rook color &&& board ≠ 0 then .Rook
  else if gs.pieces .Queen color &&& board ≠ 0 then .Queen
  else .King

/-- `CacheEntry::u16_to_mv`: decode a 16-bit move against the live position.
Bits are extracted by masking; the moving piece and any captured piece are
re-derived from the position's bitboards; type tags other than
`1,2,3,4,5,6,8` fall through to the `Capture` branch. -/
def u16_to_mv (mv : Nat) (gs : GameState) : GameMove :=
  let typ := mv &&& 15
  let mfrom := (mv &&& 0xFC00) >>> 10
  let mto := (mv &&& 0x03F0) >>> 4
  let from_board := 1 <<< mfrom
  let to_board := 1 <<< mto
  let color_to_move := gs.color_to_move
  let enemy_color := 1 - color_to_move
  let piece_type := derive_piece gs color_to_move from_board
  if typ = 1 then
    ⟨mfrom, mto, piece_type, .Quiet⟩
  else if typ = 2 then
    ⟨mfrom, mto, piece_type, .Castle⟩
  else if typ = 8 then
    ⟨mfrom, mto, piece_type, .EnPassant⟩
  else
    let captured_piece_type := derive_piece gs enemy_color to_board
    if typ = 3 then
      ⟨mfrom, mto, piece_type, .Promotion .Queen
        (if captured_piece_type ≠ .King then some captured_piece_type else none)⟩
    else if typ = 4 then
      ⟨mfrom, mto, piece_type, .Promotion .Rook
        (if captured_piece_type ≠ .King then some captured_piece_type else none)⟩
    else if typ = 5 then
      ⟨mfrom, mto, piece_type, .Promotion .Bishop
        (if captured_piece_type ≠ .King then some captured_piece_type else none)⟩
    else if typ = 6 then
      ⟨mfrom, mto, piece_type, .Promotion .Knight
        (if captured_piece_type ≠ .King then some captured_piece_type else none)⟩
    else
      ⟨mfrom, mto, piece_type, .Capture captured_piece_type⟩

end CacheEntry

/-! ## Consistency of a move with the position's boards

A legal move of a position occupies its squares consistently with the piece
bitboards: the from-square holds exactly the moving piece (for the side to
move), and the to-square holds exactly the captured piece when the move
captures, or no enemy piece when it does not.  These are the only facts about
legality that `u16_to_mv` relies on; the move generator itself is out of the
provided sources. -/

/-- Square `sq` of color `c` is occupied by kind `k` and by no other kind. -/
abbrev occupies_exactly (gs : GameState) (c : Nat) (sq : Nat) (k : PieceType) : Prop :=
  (gs.pieces .Pawn c &&& (1 <<< sq) ≠ 0 ↔ k = .Pawn) ∧
  (gs.pieces .Knight c &&& (1 <<< sq) ≠ 0 ↔ k = .Knight) ∧
  (gs.pieces .Bishop c &&& (1 <<< sq) ≠ 0 ↔ k = .Bishop) ∧
  (gs.pieces .Rook c &&& (1 <<< sq) ≠ 0 ↔ k = .Rook) ∧
  (gs.pieces .Queen c &&& (1 <<< sq) ≠ 0 ↔ k = .Queen) ∧
  (gs.pieces .King c &&& (1 <<< sq) ≠ 0 ↔ k = .King)

/-- No enemy piece that the decoder's capture-derivation chain inspects
(pawn through queen) sits on square `sq` of color `c`. -/
abbrev no_capturable_piece (gs : GameState) (c : Nat) (sq : Nat) : Prop :=
  gs.pieces .Pawn c &&& (1 <<< sq) = 0 ∧
  gs.pieces .Knight c &&& (1 <<< sq) = 0 ∧
  gs.pieces .Bishop c &&& (1 <<< sq) = 0 ∧
  gs.pieces .Rook c &&& (1 <<< sq) = 0 ∧
  gs.pieces .Queen c &&& (1 <<< sq) = 0

/-- The board-consistency facts that hold for every legal move `m` of
position `gs` and that the codec round-trip relies on. -/
abbrev move_consistent (gs : GameState) (m : GameMove) : Prop :=
  m.«from» < 64 ∧ m.«to» < 64 ∧
  occupies_exactly gs gs.color_to_move m.«from» m.piece_type ∧
  (match m.move_type with
   | .Quiet => True
   | .Castle => True
   | .EnPassant => True
   | .Capture c => occupies_exactly gs (1 - gs.color_to_move) m.«to» c
   | .Promotion p c =>
     (p = .Queen ∨ p = .Rook ∨ p = .Bishop ∨ p = .Knight) ∧
     (match c with
      | some k => k ≠ .King ∧ occupies_exactly gs (1 - gs.color_to_move) m.«to» k
      | none => no_capturable_piece gs (1 - gs.color_to_move) m.«to»))

lemma derive_piece_eq (gs : GameState) (c : Nat) (sq : Nat) (k : PieceType)
    (h : occupies_exactly gs c sq k) :
    CacheEntry.derive_piece gs c (1 <<< sq) = k := by
  obtain ⟨h1, h2, h3, h4, h5, h6⟩ := h
  cases k <;>
    simp_all [CacheEntry.derive_piece]

lemma derive_piece_king (gs : GameState) (c : Nat) (sq : Nat)
    (h : no_capturable_piece gs c sq) :
    CacheEntry.derive_piece gs c (1 <<< sq) = .King := by
  obtain ⟨h1, h2, h3, h4, h5⟩ := h
  simp [CacheEntry.derive_piece, h1, h2, h3, h4, h5]

/-- Round-trip of the codec: encoding succeeds and decoding against the
position recovers the move, for every move consistent with the position's
boards. -/
lemma mv_roundtrip (gs : GameState) (m : GameMove) (h : move_consistent gs m) :
    ∃ v, CacheEntry.mv_to_u16 m = some v ∧ CacheEntry.u16_to_mv v gs = m := by
  obtain ⟨hf, ht, hocc, hmt⟩ := h
  obtain ⟨f, t, pt, mt⟩ := m
  simp only at hf ht hocc hmt
  have hpc := derive_piece_eq gs gs.color_to_move f pt hocc
  cases mt with
  | Quiet =>
    refine ⟨enc f t 1, rfl, ?_⟩
    simp only [CacheEntry.u16_to_mv]
    rw [enc_and_15 f t 1 (by norm_num), enc_from f t 1 hf ht (by norm_num),
      enc_to f t 1 ht (by norm_num)]
    simp [hpc]
  | Castle =>
    refine ⟨enc f t 2, rfl, ?_⟩
    simp only [CacheEntry.u16_to_mv]
    rw [enc_and_15 f t 2 (by norm_num), enc_from f t 2 hf ht (by norm_num),
      enc_to f t 2 ht (by norm_num)]
    simp [hpc]
  | EnPassant =>
    refine ⟨enc f t 8, rfl, ?_⟩
    simp only [CacheEntry.u16_to_mv]
    rw [enc_and_15 f t 8 (by norm_num), enc_from f t 8 hf ht (by norm_num),
      enc_to f t 8 ht (by norm_num)]
    simp [hpc]
  | Capture c =>
    have hcap := derive_piece_eq gs (1 - gs.color_to_move) t c hmt
    refine ⟨enc f t 7, rfl, ?_⟩
    simp only [CacheEntry.u16_to_mv]
    rw [enc_and_15 f t 7 (by norm_num), enc_from f t 7 hf ht (by norm_num),
      enc_to f t 7 ht (by norm_num)]
    simp [hpc, hcap]
  | Promotion p c =>
    obtain ⟨hp, hc⟩ := hmt
    have hcap : (CacheEntry.derive_piece gs (1 - gs.color_to_move) (1 <<< t) ≠ .King →
        some (CacheEntry.derive_piece gs (1 - gs.color_to_move) (1 <<< t)) = c) ∧
        (CacheEntry.derive_piece gs (1 - gs.color_to_move) (1 <<< t) = .King →
        c = none) := by
      cases c with
      | some k =>
        obtain ⟨hk, hocc2⟩ := hc
        rw [derive_piece_eq gs (1 - gs.color_to_move) t k hocc2]
        exact ⟨fun _ => rfl, fun hkk => absurd hkk hk⟩
      | none =>
        rw [derive_piece_king gs (1 - gs.color_to_move) t hc]
        exact ⟨fun hne => absurd rfl hne, fun _ => rfl⟩
    rcases hp with hp | hp | hp | hp <;> subst hp
    · refine ⟨enc f t 3, rfl, ?_⟩
      simp only [CacheEntry.u16_to_mv]
      rw [enc_and_15 f t 3 (by norm_num), enc_from f t 3 hf ht (by norm_num),
        enc_to f t 3 ht (by norm_num)]
      by_cases hk : CacheEntry.derive_piece gs (1 - gs.color_to_move) (1 <<< t) = .King
      · simp [hpc, hk, hcap.2 hk]
      · simp [hpc, hk, hcap.1 hk]
    · refine ⟨enc f t 4, rfl, ?_⟩
      simp only [CacheEntry.u16_to_mv]
      rw [enc_and_15 f t 4 (by norm_num), enc_from f t 4 hf ht (by norm_num),
        enc_to f t 4 ht (by norm_num)]
      by_cases hk : CacheEntry.derive_piece gs (1 - gs.color_to_move) (1 <<< t) = .King
      · simp [hpc, hk, hcap.2 hk]
      · simp [hpc, hk, hcap.1 hk]
    · refine ⟨enc f t 5, rfl, ?_⟩
      simp only [CacheEntry.u16_to_mv]
      rw [enc_and_15 f t 5 (by norm_num), enc_from f t 5 hf ht (by norm_num),
        enc_to f t 5 ht (by norm_num)]
      by_cases hk : CacheEntry.derive_piece gs (1 - gs.color_to_move) (1 <<< t) = .King
      · simp [hpc, hk, hcap.2 hk]
      · simp [hpc, hk, hcap.1 hk]
    · refine ⟨enc f t 6, rfl, ?_⟩
      simp only [CacheEntry.u16_to_mv]
      rw [enc_and_15 f t 6 (by norm_num), enc_from f t 6 hf ht (by norm_num),
        enc_to f t 6 ht (by norm_num)]
      by_cases hk : CacheEntry.derive_piece gs (1 - gs.color_to_move) (1 <<< t) = .King
      · simp [hpc, hk, hcap.2 hk]
      · simp [hpc, hk, hcap.1 hk]

/-! ## Cache entries, buckets and the lock-striped cache (`search/cache.rs`) -/

/-- `INVALID_STATIC_EVALUATION: i16 = -32768`. -/
def INVALID_STATIC_EVALUATION : Int := -32768

/-- Truncating cast `as i8` on an `i16` value, embedded on `Int`. -/
def wrap8 (d : Int) : Int := (d + 128) % 256 - 128

/-- The 16-byte cache entry (`struct CacheEntry`).  `depth` is `i8`,
`plies_played` `u16`, `score`/`static_evaluation` `i16`, the hash halves
`u32`, `mv` the 16-bit encoded move. -/
structure CacheEntry where
  alpha : Bool
  beta : Bool
  pv_node : Bool
  depth : Int
  plies_played : Nat
  score : Int
  upper_hash : Nat
  lower_hash : Nat
  mv : Nat
  static_evaluation : Int
deriving DecidableEq, Repr

namespace CacheEntry

/-- `CacheEntry::get_score`: `depth as f64 * if pv_node { 1. } else { 0.7 }`,
embedded at 10× scale as `depth * (10 | 7)` (see the header note). -/
def get_score (ce : CacheEntry) : Int := ce.depth * (if ce.pv_node then 10 else 7)

/-- `CacheEntry::validate_hash`. -/
def validate_hash (ce : CacheEntry) (hash : Nat) : Bool :=
  (ce.upper_hash == hash >>> 32) && (ce.lower_hash == hash &&& 0xFFFFFFFF)

/-- `CacheEntry::is_invalid`: `self.mv == 0`. -/
def is_invalid (ce : CacheEntry) : Bool := ce.mv == 0

/-- `CacheEntry::invalid()`: the all-cleared entry. -/
def invalid : CacheEntry :=
  { upper_hash := 0, lower_hash := 0, depth := 0, plies_played := 0, score := 0,
    alpha := false, beta := false, mv := 0,
    static_evaluation := INVALID_STATIC_EVALUATION, pv_node := false }

/-- `CacheEntry::write`.  `depth` is truncated `as i8`, the hash halves
`as u32`; `none` exactly when encoding the move would panic. -/
def write (hash : Nat) (depth : Int) (plies_played : Nat) (score : Int)
    (static_evaluation : Option Int) (pv_node alpha beta : Bool) (mv : GameMove) :
    Option CacheEntry :=
  (mv_to_u16 mv).map fun m =>
    { upper_hash := (hash >>> 32) % 4294967296,
      lower_hash := (hash &&& 0xFFFFFFFF) % 4294967296,
      depth := wrap8 depth,
      plies_played := plies_played,
      score := score,
      alpha := alpha,
      beta := beta,
      pv_node := pv_node,
      mv := m,
      static_evaluation :=
        match static_evaluation with
        | some se => se
        | none => INVALID_STATIC_EVALUATION }

end CacheEntry

/-- A 64-byte bucket of three entries (`struct CacheBucket([CacheEntry; 3])`). -/
structure CacheBucket where
  e0 : CacheEntry
  e1 : CacheEntry
  e2 : CacheEntry
deriving DecidableEq, Repr

namespace CacheBucket

/-- `CacheBucket::default()`: three invalid entries. -/
def empty : CacheBucket := ⟨.invalid, .invalid, .invalid⟩

/-- The `write_entry` closure of `CacheBucket::replace_entry`: the entry it
stores, with the bound flags `lower_bound = score ≥ beta`,
`upper_bound = score ≤ original_alpha` and `pv_node = beta - alpha > 1`
computed from the search result. -/
def new_entry (p : CombinedSearchParameters) (mv : GameMove)
    (score original_alpha : Int) (root_plies_played : Nat)
    (static_evaluation : Option Int) : Option CacheEntry :=
  CacheEntry.write p.game_state.hash p.depth_left (root_plies_played % 65536) score
    static_evaluation (decide (p.beta - p.alpha > 1)) (decide (score ≤ original_alpha))
    (decide (score ≥ p.beta)) mv

/-- The `renew_entry` closure of `CacheBucket::replace_entry`: overwrite the
slot when it is stale (older root) or its replacement score does not exceed
the candidate's. -/
def renew_entry (p : CombinedSearchParameters) (mv : GameMove)
    (score original_alpha : Int) (root_plies_played : Nat)
    (static_evaluation : Option Int) (ce : CacheEntry) : Option CacheEntry :=
  if ce.plies_played < root_plies_played % 65536 ∨
      ce.get_score ≤ p.depth_left * (if decide (p.beta - p.alpha > 1) then 10 else 7) then
    new_entry p mv score original_alpha root_plies_played static_evaluation
  else some ce

/-- The tail of `CacheBucket::replace_entry` when no slot is invalid, stale
or hash-matching: compute the scan `min_score`/`min_entry` over the three
slots (starting from slot 2, preferring lower indices on strict decrease)
and overwrite the lowest-scoring slot iff the candidate's replacement score
reaches it. -/
def evict_lowest (b : CacheBucket) (p : CombinedSearchParameters) (mv : GameMove)
    (score original_alpha : Int) (root_plies_played : Nat)
    (static_evaluation : Option Int) : Option (CacheBucket × Bool) :=
  let new_score : Int := p.depth_left * (if decide (p.beta - p.alpha > 1) then 10 else 7)
  let ms2 := b.e2.get_score
  let ms1 := if b.e1.get_score < ms2 then b.e1.get_score else ms2
  let me1 : Nat := if b.e1.get_score < ms2 then 1 else 2
  let min_score := if b.e0.get_score < ms1 then b.e0.get_score else ms1
  let min_entry : Nat := if b.e0.get_score < ms1 then 0 else me1
  if new_score ≥ min_score then
    (new_entry p mv score original_alpha root_plies_played static_evaluation).map fun en =>
      (if min_entry = 0 then ⟨en, b.e1, b.e2⟩
       else if min_entry = 1 then ⟨b.e0, en, b.e2⟩
       else ⟨b.e0, b.e1, en⟩, false)
  else some (b, false)

/-- `CacheBucket::replace_entry`.  The result pairs the new bucket contents
with the returned `bool` (whether an invalid slot was targeted, which bumps
the `full` counter); the element swaps that move the refreshed slot to
slot 0 are applied to the field order.  `none` exactly when
`CacheEntry::write` would panic on the move. -/
def replace_entry (b : CacheBucket) (p : CombinedSearchParameters) (mv : GameMove)
    (score original_alpha : Int) (root_plies_played : Nat)
    (static_evaluation : Option Int) : Option (CacheBucket × Bool) :=
  let renew_entry : CacheEntry → Option CacheEntry :=
    CacheBucket.renew_entry p mv score original_alpha root_plies_played static_evaluation
  if b.e0.is_invalid ∨ b.e0.plies_played < root_plies_played % 65536 ∨
      b.e0.validate_hash p.game_state.hash then
    (renew_entry b.e0).map fun e0n => (⟨e0n, b.e1, b.e2⟩, b.e0.is_invalid)
  else if b.e1.is_invalid ∨ b.e1.plies_played < root_plies_played % 65536 ∨
      b.e1.validate_hash p.game_state.hash then
    (renew_entry b.e1).map fun e1n => (⟨e1n, b.e0, b.e2⟩, b.e1.is_invalid)
  else if b.e2.is_invalid ∨ b.e2.plies_played < root_plies_played % 65536 ∨
      b.e2.validate_hash p.game_state.hash then
    (renew_entry b.e2).map fun e2n => (⟨e2n, b.e0, b.e1⟩, b.e2.is_invalid)
  else b.evict_lowest p mv score original_alpha root_plies_played static_evaluation

/-- `CacheBucket::probe`: reject hash 0, then return the first slot whose
split hash matches. -/
def probe (b : CacheBucket) (hash : Nat) : Option CacheEntry :=
  if hash = 0 then none
  else if b.e0.validate_hash hash then some b.e0
  else if b.e1.validate_hash hash then some b.e1
  else if b.e2.validate_hash hash then some b.e2
  else none

/-- `CacheBucket::age_entry`. -/
def age_entry (b : CacheBucket) (hash : Nat) (new_age : Nat) : CacheBucket :=
  if b.e0.validate_hash hash then { b with e0 := { b.e0 with plies_played := new_age } }
  else if b.e1.validate_hash hash then { b with e1 := { b.e1 with plies_played := new_age } }
  else if b.e2.validate_hash hash then { b with e2 := { b.e2 with plies_played := new_age } }
  else b

end CacheBucket

/-- The lock-striped cache (`struct Cache`); the `RwLock` stripes are
embedded as the outer list, the `AtomicUsize` fill counter as `full`. -/
structure Cache where
  entries : Nat
  locks : Nat
  buckets_per_lock : Nat
  full : Nat
  cache : List (List CacheBucket)

namespace Cache

/-- `Cache::with_size`. -/
def with_size (mb_size locks : Nat) : Cache :=
  let buckets := 1024 * 1024 * mb_size / 64
  let buckets_per_lock := buckets / locks
  { entries := buckets_per_lock * locks * 3,
    locks := locks,
    buckets_per_lock := buckets_per_lock,
    full := 0,
    cache := List.replicate locks (List.replicate buckets_per_lock CacheBucket.empty) }

/-- `Cache::get`: stripe index `(hash >> 44) % locks`, bucket index
`hash % buckets_per_lock`, returning a clone of the bucket. -/
def get (c : Cache) (hash : Nat) : CacheBucket :=
  (c.cache.getD ((hash >>> 44) % c.locks) []).getD (hash % c.buckets_per_lock)
    CacheBucket.empty

/-- `Cache::age_entry`. -/
def age_entry (c : Cache) (hash : Nat) (new_age : Nat) : Cache :=
  let u := (hash >>> 44) % c.locks
  let i := hash % c.buckets_per_lock
  let row := c.cache.getD u []
  { c with cache :=
      c.cache.set u (row.set i ((row.getD i CacheBucket.empty).age_entry hash new_age)) }

/-- `Cache::insert`: a no-op on a zero-sized cache, otherwise
`replace_entry` on the addressed bucket, bumping `full` when an invalid
slot was filled. -/
def insert (c : Cache) (p : CombinedSearchParameters) (mv : GameMove)
    (score original_alpha : Int) (root_plies_played : Nat)
    (static_evaluation : Option Int) : Option Cache :=
  if c.entries = 0 then some c
  else
    let u := (p.game_state.hash >>> 44) % c.locks
    let i := p.game_state.hash % c.buckets_per_lock
    let row := c.cache.getD u []
    ((row.getD i CacheBucket.empty).replace_entry p mv score original_alpha
        root_plies_played static_evaluation).map fun r =>
      { c with full := c.full + (if r.2 then 1 else 0),
               cache := c.cache.set u (row.set i r.1) }

/-- `Cache::lookup`.  Returns the instruction together with the final values
of the two out-parameters `static_evaluation` and `tt_move` and the
(possibly re-aged) cache. -/
def lookup (c : Cache) (p : CombinedSearchParameters) (static_evaluation : Option Int)
    (tt_move : Option GameMove) (root_plies : Nat) :
    SearchInstruction × Option Int × Option GameMove × Cache :=
  if c.entries = 0 then (.ContinueSearching, static_evaluation, tt_move, c)
  else
    match (c.get p.game_state.hash).probe p.game_state.hash with
    | some ce =>
      if ce.depth ≥ wrap8 p.depth_left ∧ (p.beta - p.alpha ≤ 1 ∨ p.depth_left ≤ 0) ∧
          ((¬ ce.alpha ∧ ¬ ce.beta) ∨ (ce.beta ∧ ce.score ≥ p.beta) ∨
            (ce.alpha ∧ ce.score ≤ p.alpha)) then
        (.StopSearching ce.score, static_evaluation,
          some (CacheEntry.u16_to_mv ce.mv p.game_state), c)
      else
        (.ContinueSearching,
          if ce.static_evaluation ≠ INVALID_STATIC_EVALUATION then some ce.static_evaluation
          else static_evaluation,
          some (CacheEntry.u16_to_mv ce.mv p.game_state),
          if ce.plies_played ≠ root_plies % 65536 then
            c.age_entry p.game_state.hash (root_plies % 65536)
          else c)
    | none => (.ContinueSearching, static_evaluation, tt_move, c)

end Cache

/-! ## A concrete test position (white to move)

White: pawns h3, d5, e7; rooks a1, h1; king e1.
Black: pawn c7; bishops g4, f8; king a8.
Used as the concrete input of the witness theorems. -/

def gs_test : GameState :=
  { pieces := fun k c =>
      match k, c with
      | .Pawn, 0 => (1 <<< 23) ||| (1 <<< 35) ||| (1 <<< 52)
      | .Rook, 0 => (1 <<< 0) ||| (1 <<< 7)
      | .King, 0 => 1 <<< 4
      | .Pawn, 1 => 1 <<< 50
      | .Bishop, 1 => (1 <<< 30) ||| (1 <<< 61)
      | .King, 1 => 1 <<< 56
      | _, _ => 0,
    color_to_move := 0,
    en_passant := 0,
    half_moves := 0,
    full_moves := 1,
    hash := 816238427 }

/-- C1: for every move `M` consistent with position `P`'s boards (as every
legal move of `P` is), decoding the 16-bit encoding of `M` against `P`
yields `M` again: `u16_to_mv (mv_to_u16 M) P = M`, the captured/promoted
kinds being re-derived from `P`'s piece bitboards.  This covers all six
move-type classes, both colors and all four representable promotion kinds
with and without capture. -/
theorem claim_C1_roundtrip (gs : GameState) (m : GameMove)
    (h : move_consistent gs m) :
    ∃ v, CacheEntry.mv_to_u16 m = some v ∧ CacheEntry.u16_to_mv v gs = m :=
  mv_roundtrip gs m h

theorem claim_C1_roundtrip_witness :
    ∃ v, CacheEntry.mv_to_u16 ⟨23, 30, .Pawn, .Capture .Bishop⟩ = some v ∧
      CacheEntry.u16_to_mv v gs_test = ⟨23, 30, .Pawn, .Capture .Bishop⟩ :=
  claim_C1_roundtrip gs_test ⟨23, 30, .Pawn, .Capture .Bishop⟩ (by decide)

/-- The type tag emitted by `mv_to_u16` is always one of `1..8`. -/
lemma move_type_tag_range (mt : GameMoveType) (g : Nat)
    (h : CacheEntry.move_type_tag mt = some g) : 1 ≤ g ∧ g < 16 := by
  cases mt with
  | Promotion a c =>
    cases a <;> simp [CacheEntry.move_type_tag, CacheEntry.promotion_tag] at h <;> omega
  | _ =>
    simp [CacheEntry.move_type_tag] at h
    omega

/-- C6: `is_invalid e` holds iff `e.mv = 0`, and `mv_to_u16` never produces
the value 0 for a move with a representable promotion kind (its type-tag
bits are always in `1..8`), so a freshly-initialized entry is never mistaken
for a stored move. -/
theorem claim_C6_invalid_sentinel :
    (∀ e : CacheEntry, e.is_invalid = true ↔ e.mv = 0) ∧
    (∀ (m : GameMove) (v : Nat), CacheEntry.mv_to_u16 m = some v → v ≠ 0) := by
  constructor
  · intro e
    simp [CacheEntry.is_invalid]
  · intro m v h
    simp only [CacheEntry.mv_to_u16, Option.map_eq_some'] at h
    obtain ⟨g, hg, hv⟩ := h
    obtain ⟨hg1, hg16⟩ := move_type_tag_range m.move_type g hg
    intro hv0
    have h15 : v &&& 15 = g := by
      rw [← hv]
      exact enc_and_15 _ _ _ hg16
    rw [hv0, Nat.zero_and] at h15
    omega

theorem claim_C6_invalid_sentinel_witness :
    CacheEntry.mv_to_u16 ⟨23, 31, .Pawn, .Quiet⟩ = some 24049 ∧ (24049 : Nat) ≠ 0 :=
  ⟨by decide, claim_C6_invalid_sentinel.2 ⟨23, 31, .Pawn, .Quiet⟩ 24049 (by decide)⟩

/-- The from-square a decode returns, independent of the branch taken. -/
lemma u16_to_mv_from_eq (v : Nat) (gs : GameState) :
    (CacheEntry.u16_to_mv v gs).«from» = (v &&& 0xFC00) >>> 10 := by
  simp only [CacheEntry.u16_to_mv]
  repeat' split
  all_goals rfl

/-- The to-square a decode returns, independent of the branch taken. -/
lemma u16_to_mv_to_eq (v : Nat) (gs : GameState) :
    (CacheEntry.u16_to_mv v gs).«to» = (v &&& 0x3F0) >>> 4 := by
  simp only [CacheEntry.u16_to_mv]
  repeat' split
  all_goals rfl

/-- C10: `u16_to_mv` is total: for every 16-bit value and every position the
decoded from- and to-squares lie in `0..63` (extracted by masking), and any
type-tag residue outside the recognized set `{1,2,3,4,5,6,8}` falls through
to the `Capture` branch (with the piece-kind derivation defaulting to
`King`), so decoding never panics even on stale or raced entries. -/
theorem claim_C10_decode_total (v : Nat) (gs : GameState) :
    (CacheEntry.u16_to_mv v gs).«from» < 64 ∧ (CacheEntry.u16_to_mv v gs).«to» < 64 ∧
    (v &&& 15 ≠ 1 → v &&& 15 ≠ 2 → v &&& 15 ≠ 3 → v &&& 15 ≠ 4 → v &&& 15 ≠ 5 →
      v &&& 15 ≠ 6 → v &&& 15 ≠ 8 →
      (CacheEntry.u16_to_mv v gs).move_type =
        .Capture (CacheEntry.derive_piece gs (1 - gs.color_to_move)
          (1 <<< ((v &&& 0x3F0) >>> 4)))) := by
  refine ⟨?_, ?_, ?_⟩
  · rw [u16_to_mv_from_eq]
    have h1 : v &&& 0xFC00 ≤ 0xFC00 := Nat.and_le_right
    have h2 : (v &&& 0xFC00) >>> 10 ≤ 0xFC00 >>> 10 := by
      rw [Nat.shiftRight_eq_div_pow, Nat.shiftRight_eq_div_pow]
      exact Nat.div_le_div_right h1
    omega
  · rw [u16_to_mv_to_eq]
    have h1 : v &&& 0x3F0 ≤ 0x3F0 := Nat.and_le_right
    have h2 : (v &&& 0x3F0) >>> 4 ≤ 0x3F0 >>> 4 := by
      rw [Nat.shiftRight_eq_div_pow, Nat.shiftRight_eq_div_pow]
      exact Nat.div_le_div_right h1
    omega
  · intro h1 h2 h3 h4 h5 h6 h8
    simp [CacheEntry.u16_to_mv, h1, h2, h3, h4, h5, h6, h8]

theorem claim_C10_decode_total_witness :
    (CacheEntry.u16_to_mv 0 gs_test).«from» < 64 ∧
    (CacheEntry.u16_to_mv 0 gs_test).move_type =
      .Capture (CacheEntry.derive_piece gs_test (1 - gs_test.color_to_move)
        (1 <<< ((0 &&& 0x3F0) >>> 4))) :=
  ⟨(claim_C10_decode_total 0 gs_test).1,
   (claim_C10_decode_total 0 gs_test).2.2 (by decide) (by decide) (by decide) (by decide)
     (by decide) (by decide) (by decide)⟩

lemma new_entry_flags (p : CombinedSearchParameters) (mv : GameMove)
    (score original_alpha : Int) (root : Nat) (se : Option Int) (e : CacheEntry)
    (h : CacheBucket.new_entry p mv score original_alpha root se = some e) :
    (e.beta = true ↔ score ≥ p.beta) ∧ (e.alpha = true ↔ score ≤ original_alpha) ∧
      (e.pv_node = true ↔ p.beta - p.alpha > 1) := by
  simp only [CacheBucket.new_entry, CacheEntry.write, Option.map_eq_some'] at h
  obtain ⟨m, hm, he⟩ := h
  subst he
  simp

lemma renew_entry_cases (p : CombinedSearchParameters) (mv : GameMove)
    (score original_alpha : Int) (root : Nat) (se : Option Int) (ce e2 : CacheEntry)
    (h : CacheBucket.renew_entry p mv score original_alpha root se ce = some e2) :
    e2 = ce ∨ CacheBucket.new_entry p mv score original_alpha root se = some e2 := by
  unfold CacheBucket.renew_entry at h
  by_cases hc : ce.plies_played < root % 65536 ∨
      ce.get_score ≤ p.depth_left * (if decide (p.beta - p.alpha > 1) then 10 else 7)
  · simp only [if_pos hc] at h
    exact Or.inr h
  · simp only [if_neg hc, Option.some.injEq] at h
    exact Or.inl h.symm

lemma evict_lowest_cases (b : CacheBucket) (p : CombinedSearchParameters)
    (mv : GameMove) (score original_alpha : Int) (root : Nat) (se : Option Int)
    (b2 : CacheBucket) (grew : Bool)
    (h : b.evict_lowest p mv score original_alpha root se = some (b2, grew)) :
    b2 = b ∨ ∃ en, CacheBucket.new_entry p mv score original_alpha root se = some en ∧
      (b2 = ⟨en, b.e1, b.e2⟩ ∨ b2 = ⟨b.e0, en, b.e2⟩ ∨ b2 = ⟨b.e0, b.e1, en⟩) := by
  unfold CacheBucket.evict_lowest at h
  rcases hne : CacheBucket.new_entry p mv score original_alpha root se with _ | en <;>
    rw [hne] at h
  · by_cases h12 : b.e1.get_score < b.e2.get_score
    · simp only [if_pos h12] at h
      by_cases h0 : b.e0.get_score < b.e1.get_score
      · simp only [if_pos h0] at h
        by_cases hge : p.depth_left * (if decide (p.beta - p.alpha > 1) then (10 : Int) else 7) ≥ b.e0.get_score
        · simp only [if_pos hge, Option.map_none'] at h
          exact Option.noConfusion h
        · simp only [if_neg hge, Option.some.injEq, Prod.mk.injEq] at h
          exact Or.inl h.1.symm
      · simp only [if_neg h0] at h
        by_cases hge : p.depth_left * (if decide (p.beta - p.alpha > 1) then (10 : Int) else 7) ≥ b.e1.get_score
        · simp only [if_pos hge, Option.map_none'] at h
          exact Option.noConfusion h
        · simp only [if_neg hge, Option.some.injEq, Prod.mk.injEq] at h
          exact Or.inl h.1.symm
    · simp only [if_neg h12] at h
      by_cases h0 : b.e0.get_score < b.e2.get_score
      · simp only [if_pos h0] at h
        by_cases hge : p.depth_left * (if decide (p.beta - p.alpha > 1) then (10 : Int) else 7) ≥ b.e0.get_score
        · simp only [if_pos hge, Option.map_none'] at h
          exact Option.noConfusion h
        · simp only [if_neg hge, Option.some.injEq, Prod.mk.injEq] at h
          exact Or.inl h.1.symm
      · simp only [if_neg h0] at h
        by_cases hge : p.depth_left * (if decide (p.beta - p.alpha > 1) then (10 : Int) else 7) ≥ b.e2.get_score
        · simp only [if_pos hge, Option.map_none'] at h
          exact Option.noConfusion h
        · simp only [if_neg hge, Option.some.injEq, Prod.mk.injEq] at h
          exact Or.inl h.1.symm
  · by_cases h12 : b.e1.get_score < b.e2.get_score
    · simp only [if_pos h12] at h
      by_cases h0 : b.e0.get_score < b.e1.get_score
      · simp only [if_pos h0] at h
        by_cases hge : p.depth_left * (if decide (p.beta - p.alpha > 1) then (10 : Int) else 7) ≥ b.e0.get_score
        · simp only [if_pos hge, Option.map_some', Option.some.injEq, Prod.mk.injEq] at h
          norm_num at h
          obtain ⟨hb2, -⟩ := h
          exact Or.inr ⟨en, rfl, by subst hb2; exact Or.inl rfl⟩
        · simp only [if_neg hge, Option.some.injEq, Prod.mk.injEq] at h
          exact Or.inl h.1.symm
      · simp only [if_neg h0] at h
        by_cases hge : p.depth_left * (if decide (p.beta - p.alpha > 1) then (10 : Int) else 7) ≥ b.e1.get_score
        · simp only [if_pos hge, Option.map_some', Option.some.injEq, Prod.mk.injEq] at h
          norm_num at h
          obtain ⟨hb2, -⟩ := h
          exact Or.inr ⟨en, rfl, by subst hb2; exact Or.inr (Or.inl rfl)⟩
        · simp only [if_neg hge, Option.some.injEq, Prod.mk.injEq] at h
          exact Or.inl h.1.symm
    · simp only [if_neg h12] at h
      by_cases h0 : b.e0.get_score < b.e2.get_score
      · simp only [if_pos h0] at h
        by_cases hge : p.depth_left * (if decide (p.beta - p.alpha > 1) then (10 : Int) else 7) ≥ b.e0.get_score
        · simp only [if_pos hge, Option.map_some', Option.some.injEq, Prod.mk.injEq] at h
          norm_num at h
          obtain ⟨hb2, -⟩ := h
          exact Or.inr ⟨en, rfl, by subst hb2; exact Or.inl rfl⟩
        · simp only [if_neg hge, Option.some.injEq, Prod.mk.injEq] at h
          exact Or.inl h.1.symm
      · simp only [if_neg h0] at h
        by_cases hge : p.depth_left * (if decide (p.beta - p.alpha > 1) then (10 : Int) else 7) ≥ b.e2.get_score
        · simp only [if_pos hge, Option.map_some', Option.some.injEq, Prod.mk.injEq] at h
          norm_num at h
          obtain ⟨hb2, -⟩ := h
          exact Or.inr ⟨en, rfl, by subst hb2; exact Or.inr (Or.inr rfl)⟩
        · simp only [if_neg hge, Option.some.injEq, Prod.mk.injEq] at h
          exact Or.inl h.1.symm

/-- C3: for every cache insertion with result `score`, window
`(alpha, beta)` and `original_alpha`, the stored entry's bound flags
satisfy: `beta` flag set iff `score ≥ beta`, `alpha` flag set iff
`score ≤ original_alpha` (both clear — exact — otherwise), and the
`pv_node` flag set iff `beta − alpha > 1`: every slot of the
post-insertion bucket is either one of the pre-insertion entries or
carries exactly these flags. -/
theorem claim_C3_bound_flags (b : CacheBucket) (p : CombinedSearchParameters)
    (mv : GameMove) (score original_alpha : Int) (root : Nat) (se : Option Int)
    (b2 : CacheBucket) (grew : Bool)
    (h : b.replace_entry p mv score original_alpha root se = some (b2, grew)) :
    ∀ e, (e = b2.e0 ∨ e = b2.e1 ∨ e = b2.e2) →
      (e = b.e0 ∨ e = b.e1 ∨ e = b.e2) ∨
      ((e.beta = true ↔ score ≥ p.beta) ∧ (e.alpha = true ↔ score ≤ original_alpha) ∧
        (e.pv_node = true ↔ p.beta - p.alpha > 1)) := by
  simp only [CacheBucket.replace_entry] at h
  split at h
  · obtain ⟨ein, hre, hpair⟩ := Option.map_eq_some'.mp h
    have hb2 := congrArg Prod.fst hpair
    dsimp at hb2
    subst hb2
    intro e hmem
    rcases renew_entry_cases p mv score original_alpha root se b.e0 ein hre with he | hnew
    · rcases hmem with rfl | rfl | rfl
      · exact Or.inl (Or.inl he)
      · exact Or.inl (Or.inr (Or.inl rfl))
      · exact Or.inl (Or.inr (Or.inr rfl))
    · rcases hmem with rfl | rfl | rfl
      · exact Or.inr (new_entry_flags p mv score original_alpha root se _ hnew)
      · exact Or.inl (Or.inr (Or.inl rfl))
      · exact Or.inl (Or.inr (Or.inr rfl))
  · split at h
    · obtain ⟨ein, hre, hpair⟩ := Option.map_eq_some'.mp h
      have hb2 := congrArg Prod.fst hpair
      dsimp at hb2
      subst hb2
      intro e hmem
      rcases renew_entry_cases p mv score original_alpha root se b.e1 ein hre with he | hnew
      · rcases hmem with rfl | rfl | rfl
        · exact Or.inl (Or.inr (Or.inl he))
        · exact Or.inl (Or.inl rfl)
        · exact Or.inl (Or.inr (Or.inr rfl))
      · rcases hmem with rfl | rfl | rfl
        · exact Or.inr (new_entry_flags p mv score original_alpha root se _ hnew)
        · exact Or.inl (Or.inl rfl)
        · exact Or.inl (Or.inr (Or.inr rfl))
    · split at h
      · obtain ⟨ein, hre, hpair⟩ := Option.map_eq_some'.mp h
        have hb2 := congrArg Prod.fst hpair
        dsimp at hb2
        subst hb2
        intro e hmem
        rcases renew_entry_cases p mv score original_alpha root se b.e2 ein hre with he | hnew
        · rcases hmem with rfl | rfl | rfl
          · exact Or.inl (Or.inr (Or.inr he))
          · exact Or.inl (Or.inl rfl)
          · exact Or.inl (Or.inr (Or.inl rfl))
        · rcases hmem with rfl | rfl | rfl
          · exact Or.inr (new_entry_flags p mv score original_alpha root se _ hnew)
          · exact Or.inl (Or.inl rfl)
          · exact Or.inl (Or.inr (Or.inl rfl))
      · rcases evict_lowest_cases b p mv score original_alpha root se b2 grew h with
          rfl | ⟨en, hnew, hmem3⟩
        · intro e hmem
          rcases hmem with rfl | rfl | rfl
          · exact Or.inl (Or.inl rfl)
          · exact Or.inl (Or.inr (Or.inl rfl))
          · exact Or.inl (Or.inr (Or.inr rfl))
        · have hfl := new_entry_flags p mv score original_alpha root se en hnew
          intro e hmem
          rcases hmem3 with rfl | rfl | rfl
          · rcases hmem with rfl | rfl | rfl
            · exact Or.inr hfl
            · exact Or.inl (Or.inr (Or.inl rfl))
            · exact Or.inl (Or.inr (Or.inr rfl))
          · rcases hmem with rfl | rfl | rfl
            · exact Or.inl (Or.inl rfl)
            · exact Or.inr hfl
            · exact Or.inl (Or.inr (Or.inr rfl))
          · rcases hmem with rfl | rfl | rfl
            · exact Or.inl (Or.inl rfl)
            · exact Or.inl (Or.inr (Or.inl rfl))
            · exact Or.inr hfl

/-- The parameter bundle of the witness runs: window `(0, 10)`,
`depth_left 3`, position `gs_test`. -/
def p_test : CombinedSearchParameters := ⟨0, 10, 3, gs_test⟩

/-- The entry the witness insertion stores. -/
def e_test : CacheEntry :=
  ⟨false, true, true, 3, 0, 20, 0, 816238427, 24049, -32768⟩

theorem claim_C3_bound_flags_witness :
    (e_test = CacheBucket.empty.e0 ∨ e_test = CacheBucket.empty.e1 ∨
      e_test = CacheBucket.empty.e2) ∨
    ((e_test.beta = true ↔ (20 : Int) ≥ p_test.beta) ∧
      (e_test.alpha = true ↔ (20 : Int) ≤ 0) ∧
      (e_test.pv_node = true ↔ p_test.beta - p_test.alpha > 1)) :=
  claim_C3_bound_flags CacheBucket.empty p_test ⟨23, 31, .Pawn, .Quiet⟩ 20 0 0 none
    ⟨e_test, .invalid, .invalid⟩ true (by decide) e_test (Or.inl rfl)

/-- Number of slots of a bucket whose split hash matches `h`. -/
def CacheBucket.count_hash (b : CacheBucket) (h : Nat) : Nat :=
  (if b.e0.validate_hash h then 1 else 0) + (if b.e1.validate_hash h then 1 else 0) +
    (if b.e2.validate_hash h then 1 else 0)

/-- The entry written for hash `h < 2^64` matches `h` on probe. -/
lemma new_entry_validate (p : CombinedSearchParameters) (mv : GameMove)
    (score original_alpha : Int) (root : Nat) (se : Option Int) (en : CacheEntry)
    (hH : p.game_state.hash < 2 ^ 64)
    (h : CacheBucket.new_entry p mv score original_alpha root se = some en) :
    en.validate_hash p.game_state.hash = true := by
  simp only [CacheBucket.new_entry, CacheEntry.write, Option.map_eq_some'] at h
  obtain ⟨m, hm, he⟩ := h
  subst he
  have h1 : p.game_state.hash >>> 32 < 4294967296 := by
    rw [Nat.shiftRight_eq_div_pow]
    omega
  have h2 : p.game_state.hash &&& 0xFFFFFFFF < 4294967296 := by
    have := Nat.and_le_right (n := p.game_state.hash) (m := 0xFFFFFFFF)
    omega
  simp [CacheEntry.validate_hash, Nat.mod_eq_of_lt h1, Nat.mod_eq_of_lt h2]

/-- Part (a) of the amended C5: an insertion never decreases the number of
slots holding the inserted hash. -/
lemma replace_entry_count_hash (b : CacheBucket) (p : CombinedSearchParameters)
    (mv : GameMove) (score original_alpha : Int) (root : Nat) (se : Option Int)
    (b2 : CacheBucket) (grew : Bool)
    (hH : p.game_state.hash < 2 ^ 64)
    (h : b.replace_entry p mv score original_alpha root se = some (b2, grew)) :
    b.count_hash p.game_state.hash ≤ b2.count_hash p.game_state.hash := by
  simp only [CacheBucket.replace_entry] at h
  split at h
  · obtain ⟨ein, hre, hpair⟩ := Option.map_eq_some'.mp h
    have hb2 := congrArg Prod.fst hpair
    dsimp at hb2
    subst hb2
    rcases renew_entry_cases p mv score original_alpha root se b.e0 ein hre with rfl | hnew
    · exact le_refl _
    · have hv := new_entry_validate p mv score original_alpha root se ein hH hnew
      simp only [CacheBucket.count_hash, hv]
      split_ifs <;> omega
  · split at h
    · obtain ⟨ein, hre, hpair⟩ := Option.map_eq_some'.mp h
      have hb2 := congrArg Prod.fst hpair
      dsimp at hb2
      subst hb2
      rcases renew_entry_cases p mv score original_alpha root se b.e1 ein hre with rfl | hnew
      · simp only [CacheBucket.count_hash]
        split_ifs <;> omega
      · have hv := new_entry_validate p mv score original_alpha root se ein hH hnew
        simp only [CacheBucket.count_hash, hv]
        split_ifs <;> omega
    · split at h
      · obtain ⟨ein, hre, hpair⟩ := Option.map_eq_some'.mp h
        have hb2 := congrArg Prod.fst hpair
        dsimp at hb2
        subst hb2
        rcases renew_entry_cases p mv score original_alpha root se b.e2 ein hre with rfl | hnew
        · simp only [CacheBucket.count_hash]
          split_ifs <;> omega
        · have hv := new_entry_validate p mv score original_alpha root se ein hH hnew
          simp only [CacheBucket.count_hash, hv]
          split_ifs <;> omega
      · rcases evict_lowest_cases b p mv score original_alpha root se b2 grew h with
          rfl | ⟨en, hnew, hmem3⟩
        · exact le_refl _
        · have hv := new_entry_validate p mv score original_alpha root se en hH hnew
          rename_i hc0 hc1 hc2
          have hm0 : b.e0.validate_hash p.game_state.hash = false := by
            rcases Bool.eq_false_or_eq_true (b.e0.validate_hash p.game_state.hash) with
              hx | hx
            · exact absurd (Or.inr (Or.inr hx)) hc0
            · exact hx
          have hm1 : b.e1.validate_hash p.game_state.hash = false := by
            rcases Bool.eq_false_or_eq_true (b.e1.validate_hash p.game_state.hash) with
              hx | hx
            · exact absurd (Or.inr (Or.inr hx)) hc1
            · exact hx
          have hm2 : b.e2.validate_hash p.game_state.hash = false := by
            rcases Bool.eq_false_or_eq_true (b.e2.validate_hash p.game_state.hash) with
              hx | hx
            · exact absurd (Or.inr (Or.inr hx)) hc2
            · exact hx
          rcases hmem3 with rfl | rfl | rfl <;>
            simp [CacheBucket.count_hash, hv, hm0, hm1, hm2]

/-- C5 (amended): inserting for the same hash `h`, with the same root age
and a strictly higher replacement score, never removes any entry with hash
`h` from the bucket — the number of hash-`h` slots never decreases — and the
matching slot is overwritten in place with the new data exactly when it is
the first slot that is invalid, stale or hash-matching (the written slot is
then moved to slot 0 by the element swaps); when an earlier slot is invalid
or stale, the new data is written there instead and the old hash-`h` entry
remains. -/
theorem claim_C5_replacement (b : CacheBucket) (p : CombinedSearchParameters)
    (mv : GameMove) (score original_alpha : Int) (root : Nat) (se : Option Int)
    (b2 : CacheBucket) (grew : Bool)
    (hH : p.game_state.hash < 2 ^ 64)
    (h : b.replace_entry p mv score original_alpha root se = some (b2, grew)) :
    b.count_hash p.game_state.hash ≤ b2.count_hash p.game_state.hash ∧
    (b.e0.validate_hash p.game_state.hash = true →
      b.e0.plies_played = root % 65536 →
      b.e0.get_score < p.depth_left * (if decide (p.beta - p.alpha > 1) then 10 else 7) →
      ∃ en, CacheBucket.new_entry p mv score original_alpha root se = some en ∧
        b2 = ⟨en, b.e1, b.e2⟩) ∧
    (¬ (b.e0.is_invalid = true ∨ b.e0.plies_played < root % 65536 ∨
        b.e0.validate_hash p.game_state.hash = true) →
      b.e1.validate_hash p.game_state.hash = true →
      b.e1.plies_played = root % 65536 →
      b.e1.get_score < p.depth_left * (if decide (p.beta - p.alpha > 1) then 10 else 7) →
      ∃ en, CacheBucket.new_entry p mv score original_alpha root se = some en ∧
        b2 = ⟨en, b.e0, b.e2⟩) ∧
    (¬ (b.e0.is_invalid = true ∨ b.e0.plies_played < root % 65536 ∨
        b.e0.validate_hash p.game_state.hash = true) →
      ¬ (b.e1.is_invalid = true ∨ b.e1.plies_played < root % 65536 ∨
        b.e1.validate_hash p.game_state.hash = true) →
      b.e2.validate_hash p.game_state.hash = true →
      b.e2.plies_played = root % 65536 →
      b.e2.get_score < p.depth_left * (if decide (p.beta - p.alpha > 1) then 10 else 7) →
      ∃ en, CacheBucket.new_entry p mv score original_alpha root se = some en ∧
        b2 = ⟨en, b.e0, b.e1⟩) := by
  refine ⟨replace_entry_count_hash b p mv score original_alpha root se b2 grew hH h,
    ?_, ?_, ?_⟩
  · intro hm0 hage0 hsc0
    have hc0 : b.e0.is_invalid = true ∨ b.e0.plies_played < root % 65536 ∨
        b.e0.validate_hash p.game_state.hash = true := Or.inr (Or.inr hm0)
    simp only [CacheBucket.replace_entry, if_pos hc0] at h
    rw [show CacheBucket.renew_entry p mv score original_alpha root se b.e0 =
        CacheBucket.new_entry p mv score original_alpha root se from
      by rw [CacheBucket.renew_entry, if_pos (Or.inr (le_of_lt hsc0))]] at h
    obtain ⟨en, hen, hpair⟩ := Option.map_eq_some'.mp h
    have hb2 := congrArg Prod.fst hpair
    dsimp at hb2
    exact ⟨en, hen, hb2.symm⟩
  · intro hnc0 hm1 hage1 hsc1
    have hc1 : b.e1.is_invalid = true ∨ b.e1.plies_played < root % 65536 ∨
        b.e1.validate_hash p.game_state.hash = true := Or.inr (Or.inr hm1)
    simp only [CacheBucket.replace_entry, if_neg hnc0, if_pos hc1] at h
    rw [show CacheBucket.renew_entry p mv score original_alpha root se b.e1 =
        CacheBucket.new_entry p mv score original_alpha root se from
      by rw [CacheBucket.renew_entry, if_pos (Or.inr (le_of_lt hsc1))]] at h
    obtain ⟨en, hen, hpair⟩ := Option.map_eq_some'.mp h
    have hb2 := congrArg Prod.fst hpair
    dsimp at hb2
    exact ⟨en, hen, hb2.symm⟩
  · intro hnc0 hnc1 hm2 hage2 hsc2
    have hc2 : b.e2.is_invalid = true ∨ b.e2.plies_played < root % 65536 ∨
        b.e2.validate_hash p.game_state.hash = true := Or.inr (Or.inr hm2)
    simp only [CacheBucket.replace_entry, if_neg hnc0, if_neg hnc1, if_pos hc2] at h
    rw [show CacheBucket.renew_entry p mv score original_alpha root se b.e2 =
        CacheBucket.new_entry p mv score original_alpha root se from
      by rw [CacheBucket.renew_entry, if_pos (Or.inr (le_of_lt hsc2))]] at h
    obtain ⟨en, hen, hpair⟩ := Option.map_eq_some'.mp h
    have hb2 := congrArg Prod.fst hpair
    dsimp at hb2
    exact ⟨en, hen, hb2.symm⟩

/-- The position of the C5 runs: `gs_test` with hash 999. -/
def gs_c5 : GameState := { gs_test with hash := 999 }

/-- Parameters of the C5 runs: window `(0, 10)` (a PV window), depth 6. -/
def p_c5 : CombinedSearchParameters := ⟨0, 10, 6, gs_c5⟩

/-- A valid, current-aged entry for hash 999: depth 5, PV
(replacement score 5·1.0, i.e. 50 at the 10× scale). -/
def e_h_c5 : CacheEntry := ⟨false, false, true, 5, 0, 50, 0, 999, 24049, -32768⟩

/-- The entry a depth-6 PV insertion for hash 999 writes (replacement score
6·1.0 — strictly higher than `e_h_c5`). -/
def en_c5 : CacheEntry := ⟨false, true, true, 6, 0, 20, 0, 999, 24049, -32768⟩

/-- C5 counterexample: the bucket `(invalid, e_h_c5, invalid)` holds a valid
entry for hash 999 in slot 1; inserting for the same hash, same root age 0
and strictly higher replacement score writes the new data into the invalid
slot 0 and leaves slot 1's entry untouched — the matching entry's slot is
not overwritten in place as the claim states. -/
theorem claim_C5_counterexample :
    ((CacheBucket.mk .invalid e_h_c5 .invalid).e1.validate_hash p_c5.game_state.hash = true ∧
     (CacheBucket.mk .invalid e_h_c5 .invalid).e1.is_invalid = false ∧
     (CacheBucket.mk .invalid e_h_c5 .invalid).e1.plies_played = 0 % 65536 ∧
     (CacheBucket.mk .invalid e_h_c5 .invalid).e1.get_score <
       p_c5.depth_left * (if decide (p_c5.beta - p_c5.alpha > 1) then 10 else 7)) ∧
    CacheBucket.replace_entry ⟨.invalid, e_h_c5, .invalid⟩ p_c5
      ⟨23, 31, PieceType.Pawn, GameMoveType.Quiet⟩ 20 0 0 none =
      some (⟨en_c5, e_h_c5, CacheEntry.invalid⟩, true) ∧
    e_h_c5 ≠ en_c5 := by decide

theorem claim_C5_replacement_witness :
    (CacheBucket.mk e_h_c5 .invalid .invalid).count_hash p_c5.game_state.hash ≤
      (CacheBucket.mk en_c5 .invalid .invalid).count_hash p_c5.game_state.hash :=
  (claim_C5_replacement ⟨e_h_c5, .invalid, .invalid⟩ p_c5
    ⟨23, 31, PieceType.Pawn, GameMoveType.Quiet⟩ 20 0 0 none
    ⟨en_c5, .invalid, .invalid⟩ false (by decide) (by decide)).1

/-- C7: a cache constructed with zero entries (size 0 MiB) makes `insert`
return without modifying any cache state and makes `lookup` return
`ContinueSearching` without modifying its `tt_move` and
`static_evaluation` out-parameters — both operations are no-ops. -/
theorem claim_C7_zero_size_noop (locks : Nat) (p : CombinedSearchParameters)
    (mv : GameMove) (score original_alpha : Int) (root : Nat)
    (se se0 : Option Int) (tt0 : Option GameMove) :
    (Cache.with_size 0 locks).insert p mv score original_alpha root se =
      some (Cache.with_size 0 locks) ∧
    (Cache.with_size 0 locks).lookup p se0 tt0 root =
      (.ContinueSearching, se0, tt0, Cache.with_size 0 locks) := by
  have hz : (Cache.with_size 0 locks).entries = 0 := by
    simp [Cache.with_size]
  exact ⟨by simp [Cache.insert, hz], by simp [Cache.lookup, hz]⟩

lemma list_getD_replicate {α : Type} (n i : Nat) (a d : α) (h : i < n) :
    (List.replicate n a).getD i d = a := by
  induction n generalizing i with
  | zero => omega
  | succ n ih =>
    cases i with
    | zero => rfl
    | succ i => exact ih i (by omega)

lemma list_getD_set_self {α : Type} (l : List α) (i : Nat) (x d : α) (h : i < l.length) :
    (l.set i x).getD i d = x := by
  induction l generalizing i with
  | nil => simp at h
  | cons hd tl ih =>
    cases i with
    | zero => rfl
    | succ i => exact ih i (by simpa using h)

/-- `wrap8` is the identity on the `i8` range. -/
lemma wrap8_eq (d : Int) (h1 : -128 ≤ d) (h2 : d ≤ 127) : wrap8 d = d := by
  unfold wrap8
  omega

/-- C4: after inserting (position `p`, move `mv`, score, depth) into an
otherwise-empty cache, a lookup for the same position with requested depth
at most the stored depth and a window for which the bound-compatibility
rule fires (non-PV or quiescence window; exact bound, or beta-bound with
`score ≥ beta`, or alpha-bound with `score ≤ alpha`) returns
`StopSearching` with the same score and yields the same move as `tt_move`. -/
theorem claim_C4_write_then_read (mb locks : Nat) (p p2 : CombinedSearchParameters)
    (mv : GameMove) (score original_alpha : Int) (root : Nat) (se se0 : Option Int)
    (tt0 : Option GameMove)
    (hne : (Cache.with_size mb locks).entries ≠ 0)
    (hgs : p2.game_state = p.game_state)
    (hhash0 : p.game_state.hash ≠ 0)
    (hhash64 : p.game_state.hash < 2 ^ 64)
    (hmv : move_consistent p.game_state mv)
    (hd0 : 0 ≤ p.depth_left) (hd127 : p.depth_left ≤ 127)
    (hreq : p2.depth_left ≤ p.depth_left) (hreqlo : -128 ≤ p2.depth_left)
    (hwindow : p2.beta - p2.alpha ≤ 1 ∨ p2.depth_left ≤ 0)
    (hbound : (¬ score ≤ original_alpha ∧ ¬ score ≥ p.beta) ∨
              (score ≥ p.beta ∧ score ≥ p2.beta) ∨
              (score ≤ original_alpha ∧ score ≤ p2.alpha)) :
    ∃ c2, (Cache.with_size mb locks).insert p mv score original_alpha root se = some c2 ∧
      c2.lookup p2 se0 tt0 root = (.StopSearching score, se0, some mv, c2) := by
  obtain ⟨v, hvenc, hvdec⟩ := mv_roundtrip p.game_state mv hmv
  set B : Nat := 1024 * 1024 * mb / 64 / locks with hB
  have hentries : (Cache.with_size mb locks).entries = B * locks * 3 := rfl
  have hBne : B ≠ 0 := by
    intro hz
    exact hne (by rw [hentries, hz, Nat.zero_mul, Nat.zero_mul])
  have hlocksne : locks ≠ 0 := by
    intro hz
    exact hne (by rw [hentries, hz, Nat.mul_zero, Nat.zero_mul])
  set u : Nat := (p.game_state.hash >>> 44) % locks with hu
  set i : Nat := p.game_state.hash % B with hi
  have hult : u < locks := Nat.mod_lt _ (Nat.pos_of_ne_zero hlocksne)
  have hilt : i < B := Nat.mod_lt _ (Nat.pos_of_ne_zero hBne)
  set en : CacheEntry :=
      { upper_hash := (p.game_state.hash >>> 32) % 4294967296,
        lower_hash := (p.game_state.hash &&& 0xFFFFFFFF) % 4294967296,
        depth := wrap8 p.depth_left,
        plies_played := root % 65536,
        score := score,
        alpha := decide (score ≤ original_alpha),
        beta := decide (score ≥ p.beta),
        pv_node := decide (p.beta - p.alpha > 1),
        mv := v,
        static_evaluation :=
          match se with
          | some s => s
          | none => INVALID_STATIC_EVALUATION } with hen_def
  have hen : CacheBucket.new_entry p mv score original_alpha root se = some en := by
    rw [hen_def]
    simp only [CacheBucket.new_entry, CacheEntry.write, hvenc, Option.map_some']
  have hrep : CacheBucket.empty.replace_entry p mv score original_alpha root se =
      some (⟨en, .invalid, .invalid⟩, true) := by
    have hcond : CacheEntry.invalid.is_invalid = true ∨
        CacheEntry.invalid.plies_played < root % 65536 ∨
        CacheEntry.invalid.validate_hash p.game_state.hash = true := Or.inl (by decide)
    have hrcond : CacheEntry.invalid.plies_played < root % 65536 ∨
        CacheEntry.invalid.get_score ≤
          p.depth_left * (if decide (p.beta - p.alpha > 1) then 10 else 7) := by
      rcases Nat.eq_zero_or_pos (root % 65536) with hr | hr
      · refine Or.inr ?_
        have hz : CacheEntry.invalid.get_score = 0 := by decide
        rw [hz]
        have h710 : (0 : Int) ≤ (if decide (p.beta - p.alpha > 1) then 10 else 7) := by
          split <;> norm_num
        exact mul_nonneg hd0 h710
      · exact Or.inl hr
    have hrenew : CacheBucket.renew_entry p mv score original_alpha root se
        CacheEntry.invalid = some en := by
      rw [CacheBucket.renew_entry, if_pos hrcond]
      exact hen
    show CacheBucket.replace_entry ⟨.invalid, .invalid, .invalid⟩ p mv score
      original_alpha root se = some (⟨en, .invalid, .invalid⟩, true)
    rw [CacheBucket.replace_entry]
    simp only [if_pos hcond, hrenew, Option.map_some']
    rfl
  set c2 : Cache :=
      { entries := B * locks * 3, locks := locks, buckets_per_lock := B,
        full := 1,
        cache := (List.replicate locks (List.replicate B CacheBucket.empty)).set u
          ((List.replicate B CacheBucket.empty).set i ⟨en, .invalid, .invalid⟩) }
    with hc2
  have hinsert : (Cache.with_size mb locks).insert p mv score original_alpha root se =
      some c2 := by
    rw [Cache.insert, if_neg hne]
    have hrow : (Cache.with_size mb locks).cache.getD
        ((p.game_state.hash >>> 44) % (Cache.with_size mb locks).locks) [] =
        List.replicate B CacheBucket.empty :=
      list_getD_replicate locks _ _ _ hult
    have hbucket : (List.replicate B CacheBucket.empty).getD
        (p.game_state.hash % (Cache.with_size mb locks).buckets_per_lock)
        CacheBucket.empty = CacheBucket.empty :=
      list_getD_replicate B _ _ _ hilt
    simp only [show (Cache.with_size mb locks).locks = locks from rfl,
      show (Cache.with_size mb locks).buckets_per_lock = B from rfl] at hrow hbucket ⊢
    rw [hrow, hbucket, hrep, Option.map_some']
    rfl
  refine ⟨c2, hinsert, ?_⟩
  have hvalid : en.validate_hash p.game_state.hash = true :=
    new_entry_validate p mv score original_alpha root se en hhash64 hen
  have hgetc2 : c2.get p.game_state.hash = ⟨en, .invalid, .invalid⟩ := by
    rw [Cache.get]
    show ((c2.cache.getD ((p.game_state.hash >>> 44) % locks) []).getD
      (p.game_state.hash % B) CacheBucket.empty) = _
    rw [← hu, ← hi, hc2]
    rw [list_getD_set_self _ _ _ _ (by rw [List.length_replicate]; exact hult)]
    rw [list_getD_set_self _ _ _ _ (by rw [List.length_replicate]; exact hilt)]
  have hprobe : (c2.get p.game_state.hash).probe p.game_state.hash = some en := by
    rw [hgetc2, CacheBucket.probe, if_neg hhash0]
    simp [hvalid]
  have hdepth_en : en.depth = p.depth_left := by
    rw [hen_def]
    exact wrap8_eq _ (by omega) hd127
  have halpha : en.alpha = decide (score ≤ original_alpha) := by rw [hen_def]
  have hbeta : en.beta = decide (score ≥ p.beta) := by rw [hen_def]
  have hscore : en.score = score := by rw [hen_def]
  have henmv : en.mv = v := by rw [hen_def]
  have hcond2 : en.depth ≥ wrap8 p2.depth_left ∧
      (p2.beta - p2.alpha ≤ 1 ∨ p2.depth_left ≤ 0) ∧
      ((¬ en.alpha ∧ ¬ en.beta) ∨ (en.beta ∧ en.score ≥ p2.beta) ∨
        (en.alpha ∧ en.score ≤ p2.alpha)) := by
    refine ⟨?_, hwindow, ?_⟩
    · rw [hdepth_en, wrap8_eq _ hreqlo (le_trans hreq hd127)]
      exact hreq
    · rcases hbound with ⟨h1, h2⟩ | ⟨h1, h2⟩ | ⟨h1, h2⟩
      · exact Or.inl ⟨by simp [halpha, h1], by simp [hbeta, h2]⟩
      · exact Or.inr (Or.inl ⟨by simp [hbeta, h1], by rw [hscore]; exact h2⟩)
      · exact Or.inr (Or.inr ⟨by simp [halpha, h1], by rw [hscore]; exact h2⟩)
  rw [Cache.lookup, hgs]
  rw [if_neg (show ¬ c2.entries = 0 from fun hz => hne (hentries.trans hz))]
  rw [hprobe]
  dsimp only
  rw [if_pos hcond2]
  simp only [hen_def, hvdec]

theorem claim_C4_write_then_read_witness :
    ∃ c2, (Cache.with_size 1 1).insert ⟨0, 10, 3, gs_test⟩
        ⟨23, 30, .Pawn, .Capture .Bishop⟩ 20 0 0 none = some c2 ∧
      c2.lookup ⟨0, 1, 1, gs_test⟩ none none 0 =
        (.StopSearching 20, none, some ⟨23, 30, .Pawn, .Capture .Bishop⟩, c2) :=
  claim_C4_write_then_read 1 1 ⟨0, 10, 3, gs_test⟩ ⟨0, 1, 1, gs_test⟩
    ⟨23, 30, .Pawn, .Capture .Bishop⟩ 20 0 0 none none none
    (by decide) rfl (by decide) (by decide) (by decide) (by decide) (by decide)
    (by decide) (by decide) (Or.inl (by decide)) (Or.inr (Or.inl ⟨by decide, by decide⟩))

/-! ## Static null-move pruning (`search/alphabeta.rs`) -/

/-- `STATIC_NULL_MOVE_MARGIN: i16 = 120`. -/
def STATIC_NULL_MOVE_MARGIN : Int := 120

/-- `STATIC_NULL_MOVE_DEPTH: i16 = 5`. -/
def STATIC_NULL_MOVE_DEPTH : Int := 5

/-- The static null-move pruning step of `principal_variation_search`
(alphabeta.rs, the block guarded by
`!is_pv_node && !incheck && !is_likelystalemate && depth_left <= STATIC_NULL_MOVE_DEPTH`),
with the static evaluation already computed.  When the guard
`static_eval·color − STATIC_NULL_MOVE_MARGIN·depth_left ≥ beta` fires, the
source pops the history and returns
`static_eval·color − STATIC_NULL_MOVE_DEPTH·depth_left` — the depth
constant (5), not the margin constant (120), multiplies `depth_left` in the
returned value. -/
def static_null_move_step (is_pv_node incheck is_likelystalemate : Bool)
    (depth_left static_evaluation color beta : Int) : Option Int :=
  if ¬ is_pv_node ∧ ¬ incheck ∧ ¬ is_likelystalemate ∧
      depth_left ≤ STATIC_NULL_MOVE_DEPTH ∧
      static_evaluation * color - STATIC_NULL_MOVE_MARGIN * depth_left ≥ beta then
    some (static_evaluation * color - STATIC_NULL_MOVE_DEPTH * depth_left)
  else none

/-- C2: at a non-PV node, not in check, not likely-stalemate, with
`depth_left = 2 ≤ 5`, `static_eval = 1000`, `color = 1` and `beta = 500`,
the guard `1000·1 − 120·2 = 760 ≥ 500` fires, but the code returns
`1000·1 − 5·2 = 990`, not the claimed `static_eval·color − 120·depth_left
= 760`: the returned value multiplies `depth_left` by
`STATIC_NULL_MOVE_DEPTH` (5) instead of `STATIC_NULL_MOVE_MARGIN` (120). -/
theorem claim_C2_static_null_move_return :
    static_null_move_step false false false 2 1000 1 500 = some 990 ∧
    (1000 : Int) * 1 - STATIC_NULL_MOVE_MARGIN * 2 ≥ 500 ∧
    (1000 : Int) * 1 - STATIC_NULL_MOVE_MARGIN * 2 = 760 ∧
    (990 : Int) ≠ 760 := by decide

/-! ## Graded-move selection (`get_next_gm`, `search/alphabeta.rs`) -/

/-- A graded move: the index into the move list plus its ordering score
(an `f64` in the source, embedded as an exact rational). -/
structure GradedMove where
  mv_index : Nat
  score : ℚ

/-- The linear max-scan of `get_next_gm`: `for i in (mv_index+1)..max_moves
{ if graded[i].score > graded[index].score { index = i } }`. -/
def scan_best (graded : Nat → GradedMove) (mv_index max_moves : Nat) : Nat :=
  (List.range' (mv_index + 1) (max_moves - (mv_index + 1))).foldl
    (fun idx j => if (graded j).score > (graded idx).score then j else idx) mv_index

/-- `get_next_gm`: panics (`none`) on an empty move list, otherwise returns
the `mv_index` stored in the maximal graded slot and moves the graded entry
at position `mv_index` into the chosen slot (consuming it). -/
def get_next_gm (graded : Nat → GradedMove) (counter mv_index max_moves : Nat) :
    Option (Nat × (Nat → GradedMove)) :=
  if counter = 0 then none
  else
    let index := scan_best graded mv_index max_moves
    some ((graded index).mv_index,
      fun k => if k = index then graded mv_index else graded k)

/-- Invariant of the scan: starting from accumulator `idx` over the range
`[s, s+c)` with `idx < s`, the result is the earliest position of the
maximal score among `idx` and the range. -/
lemma scan_fold_spec (graded : Nat → GradedMove) :
    ∀ (c s idx : Nat), idx < s →
      (((List.range' s c).foldl
          (fun a j => if (graded j).score > (graded a).score then j else a) idx) = idx ∨
        (s ≤ ((List.range' s c).foldl
          (fun a j => if (graded j).score > (graded a).score then j else a) idx) ∧
         ((List.range' s c).foldl
          (fun a j => if (graded j).score > (graded a).score then j else a) idx) < s + c)) ∧
      (graded idx).score ≤ (graded ((List.range' s c).foldl
          (fun a j => if (graded j).score > (graded a).score then j else a) idx)).score ∧
      (∀ j, s ≤ j → j < s + c → (graded j).score ≤ (graded ((List.range' s c).foldl
          (fun a j => if (graded j).score > (graded a).score then j else a) idx)).score) ∧
      (((List.range' s c).foldl
          (fun a j => if (graded j).score > (graded a).score then j else a) idx) ≠ idx →
        (graded idx).score < (graded ((List.range' s c).foldl
          (fun a j => if (graded j).score > (graded a).score then j else a) idx)).score) ∧
      (∀ j, s ≤ j → j < ((List.range' s c).foldl
          (fun a j => if (graded j).score > (graded a).score then j else a) idx) →
        (graded j).score < (graded ((List.range' s c).foldl
          (fun a j => if (graded j).score > (graded a).score then j else a) idx)).score) := by
  intro c
  induction c with
  | zero =>
    intro s idx hlt
    have hfold : (List.range' s 0).foldl
        (fun a j => if (graded j).score > (graded a).score then j else a) idx = idx := rfl
    rw [hfold]
    refine ⟨Or.inl rfl, le_refl _, ?_, ?_, ?_⟩
    · intro j h1 h2
      omega
    · intro hne
      exact absurd rfl hne
    · intro j h1 h2
      omega
  | succ c ih =>
    intro s idx hlt
    rw [List.range'_succ, List.foldl_cons]
    by_cases hgt : (graded s).score > (graded idx).score
    · rw [if_pos hgt]
      obtain ⟨hpos, hle, hmax, hstrict, hbelow⟩ := ih (s + 1) s (by omega)
      refine ⟨?_, ?_, ?_, ?_, ?_⟩
      · rcases hpos with he | ⟨h1, h2⟩
        · exact Or.inr (by omega)
        · exact Or.inr (by omega)
      · exact le_of_lt (lt_of_lt_of_le hgt hle)
      · intro j h1 h2
        rcases Nat.eq_or_lt_of_le h1 with rfl | h1s
        · exact hle
        · exact hmax j (by omega) (by omega)
      · intro _
        exact lt_of_lt_of_le hgt hle
      · intro j h1 h2
        rcases Nat.eq_or_lt_of_le h1 with rfl | h1s
        · rcases hpos with he | ⟨hp1, hp2⟩
          · omega
          · by_cases hjs : (List.range' (s + 1) c).foldl
                (fun a j => if (graded j).score > (graded a).score then j else a) s = s
            · omega
            · exact hstrict hjs
        · exact hbelow j (by omega) h2
    · rw [if_neg hgt]
      obtain ⟨hpos, hle, hmax, hstrict, hbelow⟩ := ih (s + 1) idx (by omega)
      refine ⟨?_, hle, ?_, hstrict, ?_⟩
      · rcases hpos with he | ⟨h1, h2⟩
        · exact Or.inl he
        · exact Or.inr (by omega)
      · intro j h1 h2
        rcases Nat.eq_or_lt_of_le h1 with rfl | h1s
        · exact le_trans (le_of_not_lt hgt) hle
        · exact hmax j (by omega) (by omega)
      · intro j h1 h2
        rcases Nat.eq_or_lt_of_le h1 with rfl | h1s
        · have hne : (List.range' (s + 1) c).foldl
              (fun a j => if (graded j).score > (graded a).score then j else a) idx ≠ idx := by
            intro he
            rw [he] at h2
            omega
          exact lt_of_le_of_lt (le_of_not_lt hgt) (hstrict hne)
        · exact hbelow j (by omega) h2

/-- C8: on a graded move list with unconsumed entries at positions
`mv_index..max_moves` (`max_moves > mv_index`, nonempty counter),
`get_next_gm` returns the `mv_index` field of an entry whose score is
maximal over those positions, picking the earliest position among equal
maximal scores (the scan only moves on strictly greater scores). -/
theorem claim_C8_selection_max (graded : Nat → GradedMove)
    (counter mv_index max_moves : Nat)
    (hc : counter ≠ 0) (hlt : mv_index < max_moves) :
    ∃ upd, get_next_gm graded counter mv_index max_moves =
        some ((graded (scan_best graded mv_index max_moves)).mv_index, upd) ∧
      mv_index ≤ scan_best graded mv_index max_moves ∧
      scan_best graded mv_index max_moves < max_moves ∧
      (∀ j, mv_index ≤ j → j < max_moves →
        (graded j).score ≤ (graded (scan_best graded mv_index max_moves)).score) ∧
      (∀ j, mv_index ≤ j → j < scan_best graded mv_index max_moves →
        (graded j).score < (graded (scan_best graded mv_index max_moves)).score) := by
  have hspec := scan_fold_spec graded (max_moves - (mv_index + 1)) (mv_index + 1) mv_index
    (by omega)
  have hsum : mv_index + 1 + (max_moves - (mv_index + 1)) = max_moves := by omega
  rw [hsum] at hspec
  obtain ⟨hpos, hle, hmax, hstrict, hbelow⟩ := hspec
  have hkdef : scan_best graded mv_index max_moves = (List.range' (mv_index + 1)
      (max_moves - (mv_index + 1))).foldl
      (fun a j => if (graded j).score > (graded a).score then j else a) mv_index := rfl
  refine ⟨fun k => if k = scan_best graded mv_index max_moves then graded mv_index
    else graded k, ?_, ?_, ?_, ?_, ?_⟩
  · rw [get_next_gm, if_neg hc]
  · rw [hkdef]
    rcases hpos with he | ⟨h1, h2⟩ <;> omega
  · rw [hkdef]
    rcases hpos with he | ⟨h1, h2⟩ <;> omega
  · intro j h1 h2
    rw [hkdef]
    rcases Nat.eq_or_lt_of_le h1 with rfl | h1s
    · exact hle
    · exact hmax j (by omega) (by omega)
  · intro j h1 h2
    rw [hkdef]
    rw [hkdef] at h2
    rcases Nat.eq_or_lt_of_le h1 with rfl | h1s
    · exact hstrict (by omega)
    · exact hbelow j (by omega) h2

/-- A concrete graded list for the C8 witness. -/
def graded_test : Nat → GradedMove := fun j => ⟨j + 100, if j = 2 then 5 else 1⟩

theorem claim_C8_selection_max_witness :
    ∃ upd, get_next_gm graded_test 3 0 3 =
        some ((graded_test (scan_best graded_test 0 3)).mv_index, upd) ∧
      0 ≤ scan_best graded_test 0 3 ∧
      scan_best graded_test 0 3 < 3 ∧
      (∀ j, 0 ≤ j → j < 3 →
        (graded_test j).score ≤ (graded_test (scan_best graded_test 0 3)).score) ∧
      (∀ j, 0 ≤ j → j < scan_best graded_test 0 3 →
        (graded_test j).score < (graded_test (scan_best graded_test 0 3)).score) :=
  claim_C8_selection_max graded_test 3 0 3 (by decide) (by decide)

/-! ## King shield evaluation (`evaluation/king_evaluation.rs`)

The bitboard helpers (`bitboards::FILES`, `SHIELDING_PAWNS_*`, the front
spans and `west_one`/`east_one`) live in a file that is not part of the
provided sources; they are modelled below from the spec (§4.1: up to three
shield squares in front of the king, clamped-to-3 missing counts) and the
standard little-endian rank-file bitboard layout the sources use. -/

/-- `u64::trailing_zeros` for a nonzero word (the sources only call it on
nonzero boards; Rust returns 64 on zero, this embedding returns 0 there and
every use below is guarded by a nonzero hypothesis). -/
def tz (n : Nat) : Nat :=
  if n = 0 then 0
  else if n % 2 = 1 then 0
  else tz (n / 2) + 1
termination_by n
decreasing_by exact Nat.div_lt_self (Nat.pos_of_ne_zero (by assumption)) (by norm_num)

lemma tz_testBit : ∀ n, n ≠ 0 → n.testBit (tz n) = true := by
  intro n
  induction n using Nat.strong_induction_on with
  | _ n ih =>
    intro hn
    rw [tz, if_neg hn]
    by_cases hodd : n % 2 = 1
    · rw [if_pos hodd]
      simp [Nat.testBit_zero, hodd]
    · rw [if_neg hodd]
      have hhalf : n / 2 ≠ 0 := by omega
      have := ih (n / 2) (Nat.div_lt_self (Nat.pos_of_ne_zero hn) (by norm_num)) hhalf
      rw [Nat.testBit_add_one]
      exact this

lemma tz_lt_64 (n : Nat) (hn : n ≠ 0) (h64 : n < 2 ^ 64) : tz n < 64 := by
  have hbit := tz_testBit n hn
  have hge := Nat.testBit_implies_ge hbit
  by_contra hge64
  have : 2 ^ 64 ≤ 2 ^ tz n := Nat.pow_le_pow_right (by norm_num) (by omega)
  omega

/-- Modelled from the spec: `bitboards::FILES[f]`, the mask of the eight
squares on file `f` (squares `f, f+8, …, f+56`). -/
def FILES (f : Nat) : Nat := 0x0101010101010101 <<< f

/-- 64-bit complement (`!x` on `u64`). -/
def comp64 (b : Nat) : Nat := b ^^^ (2 ^ 64 - 1)

lemma FILES_testBit_self (idx : Nat) (h : idx < 64) : (FILES (idx % 8)).testBit idx = true := by
  rw [FILES, Nat.testBit_shiftLeft]
  have hq : ∀ q : Fin 8, Nat.testBit 0x0101010101010101 (8 * q.val) = true := by decide
  have hsub : idx - idx % 8 = 8 * (idx / 8) := by omega
  have hdiv : idx / 8 < 8 := by omega
  have := hq ⟨idx / 8, hdiv⟩
  simp [hsub, this, Nat.mod_le]

lemma tb_allones (i : Nat) : Nat.testBit (2 ^ 64 - 1) i = decide (i < 64) :=
  Nat.testBit_two_pow_sub_one 64 i

/-- The bit cleared by `shield &= !file` at the trailing-zero index. -/
lemma comp_file_bit (idx : Nat) : (comp64 (FILES (idx % 8))).testBit idx = false := by
  rw [comp64, Nat.testBit_xor, tb_allones]
  by_cases h : idx < 64
  · simp [FILES_testBit_self idx h, h]
  · have hfile : (FILES (idx % 8)).testBit idx = false := by
      rw [FILES, Nat.testBit_shiftLeft]
      have hmag : Nat.testBit 0x0101010101010101 (idx - idx % 8) = false :=
        tb_small 57 (by norm_num) (by omega)
      simp [hmag]
    simp [hfile, h]

lemma shield_shrink (shield : Nat) (hs : shield ≠ 0) :
    shield &&& comp64 (FILES (tz shield % 8)) < shield := by
  have hle : shield &&& comp64 (FILES (tz shield % 8)) ≤ shield := Nat.and_le_left
  have hne2 : shield &&& comp64 (FILES (tz shield % 8)) ≠ shield := by
    intro he
    have h1 := congrArg (fun x => Nat.testBit x (tz shield)) he
    simp only [Nat.testBit_and, comp_file_bit, Bool.and_false] at h1
    rw [tz_testBit shield hs] at h1
    exact Bool.noConfusion h1
  omega

/-- The per-file loop of `king_eval`: pop the lowest set shield square,
blank out its whole file, count one missing shield pawn when no friendly
pawn sits on that part of the shield, and one missing-on-open-file when
additionally no enemy pawn is on that file inside the king's front span. -/
def shield_counts (my_pawns enemy_pawns king_front_span : Nat) (shield : Nat) : Nat × Nat :=
  if hs : shield = 0 then (0, 0)
  else
    let idx := tz shield
    let file := FILES (idx % 8)
    let rest := shield_counts my_pawns enemy_pawns king_front_span (shield &&& comp64 file)
    if my_pawns &&& shield &&& file = 0 then
      (rest.1 + 1, rest.2 + (if enemy_pawns &&& file &&& king_front_span = 0 then 1 else 0))
    else rest
termination_by shield
decreasing_by exact shield_shrink _ (by assumption)

/-- The set of set bits (all below 64) of a board. -/
def bits64 (b : Nat) : Finset Nat := (Finset.range 64).filter (fun i => b.testBit i)

lemma bits64_card_and_lt (shield : Nat) (hs : shield ≠ 0) (h64 : shield < 2 ^ 64) :
    (bits64 (shield &&& comp64 (FILES (tz shield % 8)))).card < (bits64 shield).card := by
  apply Finset.card_lt_card
  constructor
  · intro i hi
    simp only [bits64, Finset.mem_filter, Finset.mem_range, Nat.testBit_and,
      Bool.and_eq_true] at hi ⊢
    exact ⟨hi.1, hi.2.1⟩
  · intro hsub
    have hmem : tz shield ∈ bits64 shield := by
      simp only [bits64, Finset.mem_filter, Finset.mem_range]
      exact ⟨tz_lt_64 shield hs h64, tz_testBit shield hs⟩
    have hmem2 := hsub hmem
    simp only [bits64, Finset.mem_filter, Finset.mem_range, Nat.testBit_and,
      comp_file_bit, Bool.and_false] at hmem2
    exact Bool.noConfusion hmem2.2

lemma shield_counts_le (my_pawns enemy_pawns king_front_span : Nat) :
    ∀ shield, shield < 2 ^ 64 →
      (shield_counts my_pawns enemy_pawns king_front_span shield).2 ≤
        (shield_counts my_pawns enemy_pawns king_front_span shield).1 ∧
      (shield_counts my_pawns enemy_pawns king_front_span shield).1 ≤
        (bits64 shield).card := by
  intro shield
  induction shield using Nat.strong_induction_on with
  | _ shield ih =>
    intro h64
    rw [shield_counts]
    by_cases hs : shield = 0
    · simp [hs]
    · rw [dif_neg hs]
      dsimp only
      have hsh := shield_shrink shield hs
      have hrec := ih (shield &&& comp64 (FILES (tz shield % 8))) hsh
        (lt_of_le_of_lt Nat.and_le_left h64)
      have hcard := bits64_card_and_lt shield hs h64
      split
      · constructor
        · have h01 : (if enemy_pawns &&& FILES (tz shield % 8) &&& king_front_span = 0
              then 1 else 0) ≤ 1 := by
            split <;> omega
          omega
        · omega
      · exact ⟨hrec.1, le_trans hrec.2 (le_of_lt hcard)⟩

/-- `bitboards::west_one`: shift one file toward the a-file. -/
def west_one (b : Nat) : Nat := (b >>> 1) &&& comp64 (FILES 7)

/-- `bitboards::east_one`: shift one file toward the h-file. -/
def east_one (b : Nat) : Nat := ((b <<< 1) % 2 ^ 64) &&& comp64 (FILES 0)

/-- `bitboards::w_front_span`: all squares strictly ahead of White's board. -/
def w_front_span (b : Nat) : Nat :=
  ((b <<< 8) ||| (b <<< 16) ||| (b <<< 24) ||| (b <<< 32) ||| (b <<< 40) |||
    (b <<< 48) ||| (b <<< 56)) % 2 ^ 64

/-- `bitboards::b_front_span`: all squares strictly ahead of Black's board. -/
def b_front_span (b : Nat) : Nat :=
  (b >>> 8) ||| (b >>> 16) ||| (b >>> 24) ||| (b >>> 32) ||| (b >>> 40) |||
    (b >>> 48) ||| (b >>> 56)

/-- Modelled from the spec: `bitboards::SHIELDING_PAWNS_WHITE[k]`, the up to
three pawn-shield squares one rank in front of the white king on its own and
the adjacent files. -/
def SHIELDING_PAWNS_WHITE (king_index : Nat) : Nat :=
  let kb := (1 <<< king_index) % 2 ^ 64
  ((west_one kb ||| kb ||| east_one kb) <<< 8) % 2 ^ 64

/-- Modelled from the spec: `bitboards::SHIELDING_PAWNS_BLACK[k]`, the
mirror of the white shield. -/
def SHIELDING_PAWNS_BLACK (king_index : Nat) : Nat :=
  let kb := (1 <<< king_index) % 2 ^ 64
  (west_one kb ||| kb ||| east_one kb) >>> 8

lemma shield_table_card_le (is_white : Bool) (k : Nat) :
    (bits64 (if is_white then SHIELDING_PAWNS_WHITE k else SHIELDING_PAWNS_BLACK k)).card ≤ 3 ∧
    (if is_white then SHIELDING_PAWNS_WHITE k else SHIELDING_PAWNS_BLACK k) < 2 ^ 64 := by
  by_cases hk : k < 64
  · have hfin : ∀ w : Bool, ∀ q : Fin 64,
        (bits64 (if w then SHIELDING_PAWNS_WHITE q.val else SHIELDING_PAWNS_BLACK q.val)).card ≤ 3 ∧
        (if w then SHIELDING_PAWNS_WHITE q.val else SHIELDING_PAWNS_BLACK q.val) < 2 ^ 64 := by
      decide
    exact hfin is_white ⟨k, hk⟩
  · have hkb : (1 <<< k) % 2 ^ 64 = 0 := by
      rw [Nat.shiftLeft_eq, Nat.one_mul]
      exact Nat.mod_eq_zero_of_dvd (pow_dvd_pow 2 (by omega))
    cases is_white <;>
      · simp only [SHIELDING_PAWNS_WHITE, SHIELDING_PAWNS_BLACK, hkb, west_one, east_one,
          Nat.zero_shiftRight, Nat.zero_shiftLeft, Nat.zero_and, Nat.zero_mod,
          Nat.or_self, Nat.zero_or, Nat.or_zero]
        constructor
        · simp [bits64]
        · positivity

/-- `SHIELDING_PAWN_MISSING_MG: [i16; 4]`. -/
def SHIELDING_PAWN_MISSING_MG : List Int := [0, -30, -60, -90]

/-- `SHIELDING_PAWN_MISSING_ON_OPEN_FILE: [i16; 4]`. -/
def SHIELDING_PAWN_MISSING_ON_OPEN_FILE : List Int := [0, -60, -120, -180]

/-- `struct KingEvaluation`: the two missing-shield-pawn counters. -/
structure KingEvaluation where
  shielding_pawns_missing : Nat
  shielding_pawns_missing_on_open_file : Nat
deriving DecidableEq, Repr

/-- `KingEvaluation::eval_mg`: index the two 4-entry penalty tables by the
counters; `none` exactly when the source would panic on an out-of-bounds
index. -/
def KingEvaluation.eval_mg (k : KingEvaluation) : Option Int :=
  match SHIELDING_PAWN_MISSING_MG.get? k.shielding_pawns_missing,
      SHIELDING_PAWN_MISSING_ON_OPEN_FILE.get? k.shielding_pawns_missing_on_open_file with
  | some a, some b => some (a + b)
  | _, _ => none

/-- `king_eval` (`evaluation/king_evaluation.rs`): pick the shield mask for
the king square, widen the king's front span by one file on each side, and
run the per-file counting loop — only when the full-move counter is ≥ 1. -/
def king_eval (king my_pawns enemy_pawns : Nat) (is_white : Bool)
    (full_moves : Nat) : KingEvaluation :=
  let king_index := tz king
  let shield := if is_white then SHIELDING_PAWNS_WHITE king_index
    else SHIELDING_PAWNS_BLACK king_index
  let kfs0 := if is_white then w_front_span king else b_front_span king
  let king_front_span := kfs0 ||| west_one kfs0 ||| east_one kfs0
  if 1 ≤ full_moves then
    let c := shield_counts my_pawns enemy_pawns king_front_span shield
    ⟨c.1, c.2⟩
  else ⟨0, 0⟩

lemma mg_table_get (n : Nat) (h : n ≤ 3) :
    ∃ a, SHIELDING_PAWN_MISSING_MG.get? n = some a := by
  interval_cases n <;> exact ⟨_, rfl⟩

lemma open_table_get (n : Nat) (h : n ≤ 3) :
    ∃ a, SHIELDING_PAWN_MISSING_ON_OPEN_FILE.get? n = some a := by
  interval_cases n <;> exact ⟨_, rfl⟩

/-- C9: with full-move counter 0, `king_eval` returns both shielding counts
equal to 0 (no shielding penalty); with counter ≥ 1 it counts missing
shield pawns per shield file, the on-open-file count never exceeding the
missing count and the missing count never exceeding 3, so indexing the
4-entry penalty tables in `eval_mg` is in bounds. -/
theorem claim_C9_king_shield (king my_pawns enemy_pawns : Nat) (is_white : Bool)
    (full_moves : Nat) :
    (full_moves = 0 →
      king_eval king my_pawns enemy_pawns is_white full_moves = ⟨0, 0⟩) ∧
    (king_eval king my_pawns enemy_pawns is_white
        full_moves).shielding_pawns_missing_on_open_file ≤
      (king_eval king my_pawns enemy_pawns is_white full_moves).shielding_pawns_missing ∧
    (king_eval king my_pawns enemy_pawns is_white full_moves).shielding_pawns_missing ≤ 3 ∧
    ∃ v, (king_eval king my_pawns enemy_pawns is_white full_moves).eval_mg = some v := by
  by_cases hf : 1 ≤ full_moves
  · have hcard := shield_table_card_le is_white (tz king)
    have hcounts := shield_counts_le my_pawns enemy_pawns
      ((if is_white then w_front_span king else b_front_span king) |||
        west_one (if is_white then w_front_span king else b_front_span king) |||
        east_one (if is_white then w_front_span king else b_front_span king))
      (if is_white then SHIELDING_PAWNS_WHITE (tz king)
        else SHIELDING_PAWNS_BLACK (tz king)) hcard.2
    have hke : king_eval king my_pawns enemy_pawns is_white full_moves =
        ⟨(shield_counts my_pawns enemy_pawns
            ((if is_white then w_front_span king else b_front_span king) |||
              west_one (if is_white then w_front_span king else b_front_span king) |||
              east_one (if is_white then w_front_span king else b_front_span king))
            (if is_white then SHIELDING_PAWNS_WHITE (tz king)
              else SHIELDING_PAWNS_BLACK (tz king))).1,
          (shield_counts my_pawns enemy_pawns
            ((if is_white then w_front_span king else b_front_span king) |||
              west_one (if is_white then w_front_span king else b_front_span king) |||
              east_one (if is_white then w_front_span king else b_front_span king))
            (if is_white then SHIELDING_PAWNS_WHITE (tz king)
              else SHIELDING_PAWNS_BLACK (tz king))).2⟩ := by
      simp only [king_eval]
      rw [if_pos hf]
    rw [hke]
    have hm3 : (shield_counts my_pawns enemy_pawns
        ((if is_white then w_front_span king else b_front_span king) |||
          west_one (if is_white then w_front_span king else b_front_span king) |||
          east_one (if is_white then w_front_span king else b_front_span king))
        (if is_white then SHIELDING_PAWNS_WHITE (tz king)
          else SHIELDING_PAWNS_BLACK (tz king))).1 ≤ 3 :=
      le_trans hcounts.2 hcard.1
    refine ⟨fun h0 => absurd h0 (by omega), hcounts.1, hm3, ?_⟩
    obtain ⟨a, ha⟩ := mg_table_get _ hm3
    obtain ⟨b, hb⟩ := open_table_get _ (le_trans hcounts.1 hm3)
    exact ⟨a + b, by simp only [KingEvaluation.eval_mg, ha, hb]⟩
  · have hke : king_eval king my_pawns enemy_pawns is_white full_moves = ⟨0, 0⟩ := by
      simp only [king_eval]
      rw [if_neg hf]
    rw [hke]
    exact ⟨fun _ => rfl, le_refl 0, by norm_num, ⟨0, by decide⟩⟩

theorem claim_C9_king_shield_witness :
    king_eval (1 <<< 4) ((1 <<< 11) ||| (1 <<< 12) ||| (1 <<< 13)) 0 true 0 = ⟨0, 0⟩ ∧
    (king_eval (1 <<< 4) ((1 <<< 11) ||| (1 <<< 12) ||| (1 <<< 13)) 0 true
      1).shielding_pawns_missing ≤ 3 :=
  ⟨(claim_C9_king_shield (1 <<< 4) ((1 <<< 11) ||| (1 <<< 12) ||| (1 <<< 13)) 0 true 0).1 rfl,
   (claim_C9_king_shield (1 <<< 4) ((1 <<< 11) ||| (1 <<< 12) ||| (1 <<< 13)) 0 true
     1).2.2.1⟩
